import Mathlib

/-!
# Package `to`: conversions between dynamically typed values

A shallow embedding of `src/to.go` and a verification of its documented
behaviour.

Conventions of the embedding.

* A Go `string` and a Go `[]byte` are both modelled as the list of their
  characters (`Text`); the conversions `string(b)` and `[]byte(s)` are the
  identity on that list.  Package `regexp` reads its input as UTF-8, so the
  `.` of an expression stands for one character.
* Machine integers are mathematical integers; every cast and every arithmetic
  operation that can wrap is written with an explicit reduction modulo `2^w`
  (`wrapS`, `wrapU`).  `int` and `uint` are 64 bits wide.
* Floating-point numbers are carried as uninterpreted bit patterns; the
  routines of the Go runtime and standard library that compute with them are
  the fields of `Lib`, so that every statement holds whatever they return.
* Functions of the standard library whose behaviour decides a property
  (`strconv.ParseInt`, `strconv.ParseUint`, `strconv.ParseBool`,
  `time.ParseDuration`, the three regular expressions) are transcribed from
  the Go sources.
* A run-time panic is the value `none`.
-/

namespace To

/-- A Go string or byte slice: the sequence of its characters. -/
abbrev Text := List Char

/-- Two's-complement reduction of an integer to a signed `w`-bit value. -/
def wrapS (w : Nat) (x : Int) : Int :=
  (x + 2 ^ (w - 1)) % 2 ^ w - 2 ^ (w - 1)

/-- Reduction of an integer to an unsigned `w`-bit value. -/
def wrapU (w : Nat) (x : Int) : Int :=
  x % 2 ^ w

/-- The kinds of `reflect.Kind`. -/
inductive Kind
  | Invalid | Bool | Int | Int8 | Int16 | Int32 | Int64
  | Uint | Uint8 | Uint16 | Uint32 | Uint64 | Uintptr
  | Float32 | Float64 | Complex64 | Complex128
  | Array | Chan | Func | Interface | Map | Ptr | Slice | String | Struct
  | UnsafePointer
  deriving DecidableEq, Repr

/-- A dynamically typed value (`interface{}`), by dynamic type.  The integer
constructors carry the numeric value, the float constructors a bit pattern.
`bytes` is a value of type `[]byte`; `slice` is a value of any other slice
type, with the kind of its elements (such a type can still have elements of
kind `uint8`, as the named type `type B []byte` has); `map` lists the entries
of a Go map in the order in which `reflect.Value.MapKeys` returns its keys;
`other` is a value of any remaining dynamic type (a named type, a pointer, a
struct, ...), with its kind and an uninterpreted handle. -/
inductive Value
  | nil
  | int (n : Int) | int8 (n : Int) | int16 (n : Int) | int32 (n : Int) | int64 (n : Int)
  | uint (n : Int) | uint8 (n : Int) | uint16 (n : Int) | uint32 (n : Int) | uint64 (n : Int)
  | float32 (bits : Nat) | float64 (bits : Nat)
  | complex64 (re im : Nat) | complex128 (re im : Nat)
  | bool (b : Bool)
  | string (s : Text)
  | bytes (b : Text)
  | slice (elem : Kind) (xs : List Value)
  | map (entries : List (Value × Value))
  | other (k : Kind) (handle : Nat)

/-- An instant (`time.Time`); the zero instant is `⟨0, 0⟩`. -/
structure Instant where
  sec : Int
  nsec : Nat
  deriving DecidableEq, Repr

/-- The parts of the Go runtime and standard library that the embedding leaves
uninterpreted: floating-point formatting, parsing and casts, the default
formatting of `fmt.Sprintf("%v", _)`, and `time.Parse` on a non-empty text. -/
structure Lib where
  /-- The call `strconv.AppendFloat(nil, float64(v), 'g', -1, 32)` on a `float32`. -/
  appendFloat32 : Nat → Text
  /-- The call `strconv.AppendFloat(nil, v, 'g', -1, 64)`. -/
  appendFloat64 : Nat → Text
  /-- The cast `float64(v)` of a `float32`. -/
  float32To64 : Nat → Nat
  /-- The cast `float32(v)` of a `float64`. -/
  float64To32 : Nat → Nat
  /-- The test `v >= 0` on a `float64`. -/
  float64Nonneg : Nat → Bool
  /-- The cast `int64(v)` of a `float64`. -/
  float64ToInt64 : Nat → Int
  /-- The cast `uint64(v)` of a `float64`. -/
  float64ToUint64 : Nat → Int
  /-- The cast `float64(v)` of an integer. -/
  intToFloat64 : Int → Nat
  /-- The value returned by `strconv.ParseFloat(s, 64)`, its error dropped. -/
  parseFloat : Text → Nat
  /-- The text of `fmt.Sprintf("%v", v)`. -/
  sprintf : Value → Text
  /-- The call `time.Parse(layout, value)` for a non-empty `value`. -/
  timeParse : Text → Text → Option Instant
  /-- The term `uint64(float64(f) * (float64(unit) / scale))` of
  `time.ParseDuration`, where `scale` is `10^k`. -/
  fracNanos : Nat → Nat → Nat → Nat
  /-- The comparison `x == x` on a value of another type (a struct, an array,
  a pointer, ...), by its handle; it is `false` when the value holds a NaN. -/
  otherSelfEqual : Nat → Bool
  /-- The cast `float32(v)` of the `float64` zero (bit pattern `0`) is the
  `float32` zero. -/
  float64To32_zero : float64To32 0 = 0

/-! ## Rendering integers -/

/-- `digits = "0123456789"`. -/
def digits : Text := ['0', '1', '2', '3', '4', '5', '6', '7', '8', '9']

/-- `uintbuflen = 20`. -/
def uintbuflen : Nat := 20

/-- The loop `for v >= 10 { i--; buf[i] = digits[v%10]; v = v / 10 }` of
`uint64ToBytes`, from index `i`.  Writing below index `0` panics. -/
def uint64ToBytesLoop (buf : List Char) : Nat → Nat → Option (List Char × Nat × Nat)
  | i, v =>
    if 10 ≤ v then
      match i with
      | 0 => none
      | j + 1 => uint64ToBytesLoop (buf.set j (digits.getD (v % 10) '0')) j (v / 10)
    else some (buf, i, v)

/-- `uint64ToBytes(v)`: the digits are written from the end of a buffer of
`uintbuflen` bytes and the filled part `buf[i:]` is returned. -/
def uint64ToBytes (v : Nat) : Option Text :=
  let buf := List.replicate uintbuflen (Char.ofNat 0)
  match uint64ToBytesLoop buf buf.length v with
  | none => none
  | some (buf, i, v) =>
    match i with
    | 0 => none
    | j + 1 => some ((buf.set j (digits.getD (v % 10) '0')).drop j)

/-- `int64ToBytes(v)`: `v = -v` wraps at 64 bits and `uint64(v)` reinterprets
the result. -/
def int64ToBytes (v : Int) : Option Text :=
  let negative := decide (v < 0)
  let v := if v < 0 then wrapS 64 (-v) else v
  let uv := (wrapU 64 v).toNat
  match uint64ToBytes uv with
  | none => none
  | some buf => if negative then some ('-' :: buf) else some buf

/-- `float32ToBytes`. -/
def float32ToBytes (L : Lib) (v : Nat) : Text := L.appendFloat32 v

/-- `float64ToBytes`. -/
def float64ToBytes (L : Lib) (v : Nat) : Text := L.appendFloat64 v

/-- `complex128ToBytes`: `(`, the real part, a `+` when the imaginary part is
not negative, the imaginary part, `i)`. -/
def complex128ToBytes (L : Lib) (re im : Nat) : Text :=
  let r := '(' :: L.appendFloat64 re
  let buf := if L.float64Nonneg im then r ++ ['+'] else r
  buf ++ L.appendFloat64 im ++ ['i', ')']

/-- `String(val)`. -/
protected def String (L : Lib) (val : Value) : Option Text :=
  match val with
  | .nil => some []
  | .int n => int64ToBytes n
  | .int8 n => int64ToBytes n
  | .int16 n => int64ToBytes n
  | .int32 n => int64ToBytes n
  | .int64 n => int64ToBytes n
  | .uint n => uint64ToBytes n.toNat
  | .uint8 n => uint64ToBytes n.toNat
  | .uint16 n => uint64ToBytes n.toNat
  | .uint32 n => uint64ToBytes n.toNat
  | .uint64 n => uint64ToBytes n.toNat
  | .float32 f => some (float32ToBytes L f)
  | .float64 f => some (float64ToBytes L f)
  | .complex128 re im => some (complex128ToBytes L re im)
  | .complex64 re im => some (complex128ToBytes L (L.float32To64 re) (L.float32To64 im))
  | .bool b => if b = true then some ['t', 'r', 'u', 'e'] else some ['f', 'a', 'l', 's', 'e']
  | .string s => some s
  | .bytes b => some b
  | v => some (L.sprintf v)

/-- `Bytes(val)`. -/
def Bytes (L : Lib) (val : Value) : Option Text :=
  match val with
  | .nil => some []
  | .int n => int64ToBytes n
  | .int8 n => int64ToBytes n
  | .int16 n => int64ToBytes n
  | .int32 n => int64ToBytes n
  | .int64 n => int64ToBytes n
  | .uint n => uint64ToBytes n.toNat
  | .uint8 n => uint64ToBytes n.toNat
  | .uint16 n => uint64ToBytes n.toNat
  | .uint32 n => uint64ToBytes n.toNat
  | .uint64 n => uint64ToBytes n.toNat
  | .float32 f => some (float32ToBytes L f)
  | .float64 f => some (float64ToBytes L f)
  | .complex128 re im => some (complex128ToBytes L re im)
  | .complex64 re im => some (complex128ToBytes L (L.float32To64 re) (L.float32To64 im))
  | .bool b => if b = true then some ['t', 'r', 'u', 'e'] else some ['f', 'a', 'l', 's', 'e']
  | .string s => some s
  | .bytes b => some b
  | v => some (L.sprintf v)

/-! ## `strconv`: parsing integers and booleans -/

/-- The two errors of `strconv`: `ErrSyntax` and `ErrRange`. -/
inductive NumError
  | errSyntax
  | errRange
  deriving DecidableEq, Repr

/-- The loop of `strconv.ParseUint(s, 10, 64)` over the bytes of `s`, with the
accumulator `n`: a byte that is not a decimal digit is a syntax error with
value `0`; an overflow of `n*10` (`n >= cutoff`) or of `n*10 + d` is a range
error with value `maxVal = 2^64 - 1`. -/
def parseUintLoop : Text → Nat → Nat × Option NumError
  | [], n => (n, none)
  | c :: cs, n =>
    if '0' ≤ c ∧ c ≤ '9' then
      let d := c.toNat - '0'.toNat
      if (2 ^ 64 - 1) / 10 + 1 ≤ n then (2 ^ 64 - 1, some .errRange)
      else
        let n1 := n * 10 + d
        if 2 ^ 64 - 1 < n1 then (2 ^ 64 - 1, some .errRange)
        else parseUintLoop cs n1
    else (0, some .errSyntax)

/-- `strconv.ParseUint(s, 10, 64)`: the value and the error. -/
def ParseUint (s : Text) : Nat × Option NumError :=
  if s = [] then (0, some .errSyntax) else parseUintLoop s 0

/-- `strconv.ParseInt(s, 10, 64)`: an optional sign, then `ParseUint`; a syntax
error gives `0`, a magnitude out of range gives the largest value of that sign
together with a range error. -/
def ParseInt (s : Text) : Int × Option NumError :=
  match s with
  | [] => (0, some .errSyntax)
  | c :: cs =>
    let neg := decide (c = '-')
    let s1 := if c = '+' ∨ c = '-' then cs else s
    match ParseUint s1 with
    | (_, some .errSyntax) => (0, some .errSyntax)
    | (un, _) =>
      let cutoff : Nat := 2 ^ 63
      if ¬ neg ∧ cutoff ≤ un then ((cutoff : Int) - 1, some .errRange)
      else if neg ∧ cutoff < un then (-(cutoff : Int), some .errRange)
      else
        let n := wrapS 64 (un : Int)
        (if neg then wrapS 64 (-n) else n, none)

/-- `strconv.ParseBool(str)`. -/
def ParseBool (str : Text) : Bool × Option NumError :=
  if str ∈ [['1'], ['t'], ['T'], ['t', 'r', 'u', 'e'], ['T', 'R', 'U', 'E'],
      ['T', 'r', 'u', 'e']] then (true, none)
  else if str ∈ [['0'], ['f'], ['F'], ['f', 'a', 'l', 's', 'e'], ['F', 'A', 'L', 'S', 'E'],
      ['F', 'a', 'l', 's', 'e']] then (false, none)
  else (false, some .errSyntax)

/-! ## Numeric conversions -/

/-- `Int64(val)`; the error of `strconv.ParseInt` is dropped. -/
def Int64 (L : Lib) (val : Value) : Option Int :=
  match val with
  | .int n => some n
  | .int8 n => some n
  | .int16 n => some n
  | .int32 n => some n
  | .int64 n => some n
  | .uint n => some (wrapS 64 n)
  | .uint8 n => some n
  | .uint16 n => some n
  | .uint32 n => some n
  | .uint64 n => some (wrapS 64 n)
  | .bool b => if b = true then some 1 else some 0
  | .float32 f => some (L.float64ToInt64 (L.float32To64 f))
  | .float64 f => some (L.float64ToInt64 f)
  | v => (To.String L v).map (fun s => (ParseInt s).1)

/-- `Int(val)`. -/
protected def Int (L : Lib) (val : Value) : Option Int := (Int64 L val).map (wrapS 64)

/-- `Int8(val)`. -/
def Int8 (L : Lib) (val : Value) : Option Int := (Int64 L val).map (wrapS 8)

/-- `Int16(val)`. -/
def Int16 (L : Lib) (val : Value) : Option Int := (Int64 L val).map (wrapS 16)

/-- `Int32(val)`. -/
def Int32 (L : Lib) (val : Value) : Option Int := (Int64 L val).map (wrapS 32)

/-- `Uint64(val)`; values of a type without a case give `0`. -/
def Uint64 (L : Lib) (val : Value) : Option Int :=
  match val with
  | .int n => some (wrapU 64 n)
  | .int8 n => some (wrapU 64 n)
  | .int16 n => some (wrapU 64 n)
  | .int32 n => some (wrapU 64 n)
  | .int64 n => some (wrapU 64 n)
  | .uint n => some n
  | .uint8 n => some n
  | .uint16 n => some n
  | .uint32 n => some n
  | .uint64 n => some n
  | .bool b => if b = true then some 1 else some 0
  | .string s => some ((ParseUint s).1 : Int)
  | .float32 f => some (L.float64ToUint64 (L.float32To64 f))
  | .float64 f => some (L.float64ToUint64 f)
  | _ => some 0

/-- `Uint(val)`. -/
def Uint (L : Lib) (val : Value) : Option Int := (Uint64 L val).map (wrapU 64)

/-- `Uint8(val)`. -/
def Uint8 (L : Lib) (val : Value) : Option Int := (Uint64 L val).map (wrapU 8)

/-- `Uint16(val)`. -/
def Uint16 (L : Lib) (val : Value) : Option Int := (Uint64 L val).map (wrapU 16)

/-- `Uint32(val)`. -/
def Uint32 (L : Lib) (val : Value) : Option Int := (Uint64 L val).map (wrapU 32)

/-- `Float64(val)`, as a bit pattern; `0` is the pattern of `+0.0`, with which
`f` is declared. -/
def Float64 (L : Lib) (val : Value) : Option Nat :=
  match val with
  | .int n => some (L.intToFloat64 n)
  | .int8 n => some (L.intToFloat64 n)
  | .int16 n => some (L.intToFloat64 n)
  | .int32 n => some (L.intToFloat64 n)
  | .int64 n => some (L.intToFloat64 n)
  | .uint n => some (L.intToFloat64 n)
  | .uint8 n => some (L.intToFloat64 n)
  | .uint16 n => some (L.intToFloat64 n)
  | .uint32 n => some (L.intToFloat64 n)
  | .uint64 n => some (L.intToFloat64 n)
  | .bool b => if b = true then some (L.intToFloat64 1) else some (L.intToFloat64 0)
  | .string s => some (L.parseFloat s)
  | .float32 f => some (L.float32To64 f)
  | .float64 f => some f
  | _ => some 0

/-- `Float32(val)`. -/
def Float32 (L : Lib) (val : Value) : Option Nat := (Float64 L val).map L.float64To32

/-- `Bool(value)`; the error of `strconv.ParseBool` is dropped. -/
protected def Bool (L : Lib) (value : Value) : Option Bool :=
  (To.String L value).map (fun s => (ParseBool s).1)

/-! ## `time.ParseDuration` -/

/-- `leadingInt` of package `time`: the leading decimal digits of `s` as a
number, and the rest; `none` is `errLeadingInt` (the number exceeds `2^63`). -/
def leadingInt : Text → Nat → Option (Nat × Text)
  | [], x => some (x, [])
  | c :: cs, x =>
    if c < '0' ∨ '9' < c then some (x, c :: cs)
    else if 2 ^ 63 / 10 < x then none
    else
      let x1 := x * 10 + (c.toNat - '0'.toNat)
      if 2 ^ 63 < x1 then none else leadingInt cs x1

/-- `leadingFraction` of package `time`: the leading digits as a number `x`
and the count `k` of the digits taken (`scale = 10^k`); digits after an
overflow are skipped. -/
def leadingFraction : Text → Nat → Nat → Bool → Nat × Nat × Text
  | [], x, k, _ => (x, k, [])
  | c :: cs, x, k, overflow =>
    if c < '0' ∨ '9' < c then (x, k, c :: cs)
    else if overflow then leadingFraction cs x k true
    else if (2 ^ 63 - 1) / 10 < x then leadingFraction cs x k true
    else
      let y := x * 10 + (c.toNat - '0'.toNat)
      if 2 ^ 63 < y then leadingFraction cs x k true
      else leadingFraction cs y (k + 1) false

/-- `unitMap` of package `time`, in nanoseconds. -/
def unitMap (u : Text) : Option Nat :=
  if u = ['n', 's'] then some 1
  else if u = ['u', 's'] then some 1000
  else if u = [Char.ofNat 0xB5, 's'] then some 1000
  else if u = [Char.ofNat 0x3BC, 's'] then some 1000
  else if u = ['m', 's'] then some 1000000
  else if u = ['s'] then some 1000000000
  else if u = ['m'] then some 60000000000
  else if u = ['h'] then some 3600000000000
  else none

/-- Whether `c` is `.` or a decimal digit. -/
def isDotOrDigit (c : Char) : Bool :=
  decide (c = '.' ∨ ('0' ≤ c ∧ c ≤ '9'))

/-- The loop `for s != ""` of `time.ParseDuration` with the accumulated
`d`: a number, an optional fraction, a unit.  `none` is an error.  Each round
consumes at least the one character of its unit, so `fuel = len(s)` rounds
are never exceeded. -/
def parseDurationLoop (L : Lib) : Nat → Text → Nat → Option Nat
  | _, [], d => some d
  | 0, _ :: _, _ => none
  | fuel + 1, c :: cs, d =>
    if ¬ isDotOrDigit c then none
    else
      match leadingInt (c :: cs) 0 with
      | none => none
      | some (v, s1) =>
        let pre := decide (s1.length ≠ (c :: cs).length)
        let frac : Nat × Nat × Text × Bool :=
          match s1 with
          | '.' :: t =>
            let r := leadingFraction t 0 0 false
            (r.1, r.2.1, r.2.2, decide (r.2.2.length ≠ t.length))
          | _ => (0, 0, s1, false)
        let f := frac.1
        let k := frac.2.1
        let s2 := frac.2.2.1
        let post := frac.2.2.2
        if ¬ pre ∧ ¬ post then none
        else
          let u := s2.takeWhile (fun x => ! isDotOrDigit x)
          let s3 := s2.dropWhile (fun x => ! isDotOrDigit x)
          if u = [] then none
          else
            match unitMap u with
            | none => none
            | some unit =>
              if 2 ^ 63 / unit < v then none
              else
                let v1 := v * unit
                let v2 := if 0 < f then (v1 + L.fracNanos f unit k) % 2 ^ 64 else v1
                if 0 < f ∧ 2 ^ 63 < v2 then none
                else
                  let d1 := (d + v2) % 2 ^ 64
                  if 2 ^ 63 < d1 then none else parseDurationLoop L fuel s3 d1

/-- `time.ParseDuration(s)`, in nanoseconds; `none` is an error. -/
def ParseDuration (L : Lib) (s : Text) : Option Int :=
  let neg := decide (s.head? = some '-')
  let s1 := if s.head? = some '-' ∨ s.head? = some '+' then s.tail else s
  if s1 = ['0'] then some 0
  else if s1 = [] then none
  else
    match parseDurationLoop L s1.length s1 0 with
    | none => none
    | some d =>
      if neg then some (wrapS 64 (-(wrapS 64 (d : Int))))
      else if 2 ^ 63 - 1 < d then none
      else some (d : Int)

/-! ## The regular expressions of `strToDurationMatches` -/

/-- A one-character class: a literal, `\d`, or `.` (any character but a
newline). -/
inductive Cls
  | lit (c : Char)
  | digit
  | any
  deriving DecidableEq, Repr

/-- Whether the class accepts the character. -/
def Cls.test : Cls → Char → Bool
  | .lit c, x => decide (x = c)
  | .digit, x => decide ('0' ≤ x ∧ x ≤ '9')
  | .any, x => decide (x ≠ '\n')

/-- The pieces of which the three expressions are sequences: a class taken
once, `?` and `+` (both greedy), the parentheses of a capturing group, `^` and
`$`. -/
inductive Piece
  | one (c : Cls)
  | opt (c : Cls)
  | plus (c : Cls)
  | openG
  | closeG
  | bol
  | eol
  deriving DecidableEq, Repr

/-- The state of a match: the number of characters before the current position,
the input left at each `(` not yet closed, and the groups closed so far, in
order.  No group of the three expressions contains another, so the groups
close in the order of their numbers. -/
structure MState where
  pos : Nat
  opens : List Text
  caps : List Text

/-- Greedy `c+` followed by the continuation `k`: after one accepted character,
more repetitions are tried first, and `k` on what is left if they fail. -/
def many1 {α : Type} (p : Char → Bool) (k : Text → Nat → Option α) : Text → Nat → Option α
  | [], _ => none
  | c :: cs, pos =>
    if p c then
      match many1 p k cs (pos + 1) with
      | some r => some r
      | none => k cs (pos + 1)
    else none

/-- A backtracking match of the pieces against the input from the current
position: the first match in the order of preference of the leftmost-first
semantics of package `regexp`.  Returns the input left and the final state. -/
def matchPieces : List Piece → Text → MState → Option (Text × MState)
  | [], inp, st => some (inp, st)
  | .one c :: ps, inp, st =>
    match inp with
    | [] => none
    | x :: xs => if c.test x then matchPieces ps xs ⟨st.pos + 1, st.opens, st.caps⟩ else none
  | .opt c :: ps, inp, st =>
    let taken :=
      match inp with
      | [] => none
      | x :: xs => if c.test x then matchPieces ps xs ⟨st.pos + 1, st.opens, st.caps⟩ else none
    match taken with
    | some r => some r
    | none => matchPieces ps inp st
  | .plus c :: ps, inp, st =>
    many1 c.test (fun rest pos => matchPieces ps rest ⟨pos, st.opens, st.caps⟩) inp st.pos
  | .openG :: ps, inp, st => matchPieces ps inp ⟨st.pos, inp :: st.opens, st.caps⟩
  | .closeG :: ps, inp, st =>
    match st.opens with
    | [] => none
    | o :: os => matchPieces ps inp ⟨st.pos, os, st.caps ++ [o.take (o.length - inp.length)]⟩
  | .bol :: ps, inp, st => if st.pos = 0 then matchPieces ps inp st else none
  | .eol :: ps, inp, st => if inp = [] then matchPieces ps inp st else none

/-- The leftmost match of the expression in the text, searched from every
start position in turn: the whole match followed by the groups. -/
def searchFrom (re : List Piece) : Text → Nat → Option (List Text)
  | inp, pos =>
    match matchPieces re inp ⟨pos, [], []⟩ with
    | some (rest, st) => some (inp.take (inp.length - rest.length) :: st.caps)
    | none =>
      match inp with
      | [] => none
      | _ :: xs => searchFrom re xs (pos + 1)

/-- The first element `m[0]` of `re.FindAllSubmatch(b, -1)`, or `none` when
the result is `nil`. -/
def FindAllSubmatch (re : List Piece) (b : Text) : Option (List Text) :=
  searchFrom re b 0

/-- `(\-?\d+)`. -/
def signedGroup : List Piece := [.openG, .opt (.lit '-'), .plus .digit, .closeG]

/-- `(\d+)`. -/
def digitGroup : List Piece := [.openG, .plus .digit, .closeG]

/-- The expression `^(\-?\d+):(\d+)$`. -/
def reHM : List Piece :=
  [.bol] ++ signedGroup ++ [.one (.lit ':')] ++ digitGroup ++ [.eol]

/-- The expression `^(\-?\d+):(\d+):(\d+)$`. -/
def reHMS : List Piece :=
  [.bol] ++ signedGroup ++ [.one (.lit ':')] ++ digitGroup ++ [.one (.lit ':')] ++ digitGroup
    ++ [.eol]

/-- The expression `^(\-?\d+):(\d+):(\d+).(\d+)$`; its `.` is not escaped. -/
def reHMSF : List Piece :=
  [.bol] ++ signedGroup ++ [.one (.lit ':')] ++ digitGroup ++ [.one (.lit ':')] ++ digitGroup
    ++ [.one .any] ++ digitGroup ++ [.eol]

/-! ## Durations -/

/-- `time.Second`, in nanoseconds. -/
def Second : Int := 1000000000

/-- `time.Minute`. -/
def Minute : Int := 60 * Second

/-- `time.Hour`. -/
def Hour : Int := 60 * Minute

/-- The handler of `^(\-?\d+):(\d+)$`; `m` is `m[0]`.  All arithmetic is that
of `int64`.  The returned error is always `nil`; `none` is a panic. -/
def handleHM (L : Lib) (m : List Text) : Option Int := do
  let h ← (m.get? 1).bind (fun g => Int64 L (.bytes g))
  let hrs0 := wrapS 64 (Hour * h)
  let sign : Int := if hrs0 < 0 then -1 else 1
  let hrs := if hrs0 < 0 then wrapS 64 (-1 * hrs0) else hrs0
  let mn ← (m.get? 2).bind (fun g => Int64 L (.bytes g))
  let min := wrapS 64 (Minute * mn)
  pure (wrapS 64 (sign * wrapS 64 (hrs + min)))

/-- The handler of `^(\-?\d+):(\d+):(\d+)$`. -/
def handleHMS (L : Lib) (m : List Text) : Option Int := do
  let h ← (m.get? 1).bind (fun g => Int64 L (.bytes g))
  let hrs0 := wrapS 64 (Hour * h)
  let sign : Int := if hrs0 < 0 then -1 else 1
  let hrs := if hrs0 < 0 then wrapS 64 (-1 * hrs0) else hrs0
  let mn ← (m.get? 2).bind (fun g => Int64 L (.bytes g))
  let min := wrapS 64 (Minute * mn)
  let sc ← (m.get? 3).bind (fun g => Int64 L (.bytes g))
  let sec := wrapS 64 (Second * sc)
  pure (wrapS 64 (sign * wrapS 64 (wrapS 64 (hrs + min) + sec)))

/-- The handler of `^(\-?\d+):(\d+):(\d+).(\d+)$`: the last group is padded
with `0` up to nine characters and cut to nine. -/
def handleHMSF (L : Lib) (m : List Text) : Option Int := do
  let h ← (m.get? 1).bind (fun g => Int64 L (.bytes g))
  let hrs0 := wrapS 64 (Hour * h)
  let sign : Int := if hrs0 < 0 then -1 else 1
  let hrs := if hrs0 < 0 then wrapS 64 (-1 * hrs0) else hrs0
  let mn ← (m.get? 2).bind (fun g => Int64 L (.bytes g))
  let min := wrapS 64 (Minute * mn)
  let sc ← (m.get? 3).bind (fun g => Int64 L (.bytes g))
  let sec := wrapS 64 (Second * sc)
  let lst0 ← m.get? 4
  let lst := (lst0 ++ List.replicate (9 - lst0.length) '0').take 9
  let ns ← Int64 L (.bytes lst)
  pure (wrapS 64 (sign * wrapS 64 (wrapS 64 (wrapS 64 (hrs + min) + sec) + ns)))

/-- The entries of the map `strToDurationMatches`, numbered `0`, `1`, `2` in
the order of the source text. -/
def strToDurationMatches : List (List Piece × (Lib → List Text → Option Int)) :=
  [(reHM, handleHM), (reHMS, handleHMS), (reHMSF, handleHMSF)]

/-- An order in which `range strToDurationMatches` visits the three entries of
the map: Go leaves the iteration order of a map unspecified, so any
arrangement of the three may occur. -/
abbrev TableOrder := { l : List Nat // l.Perm [0, 1, 2] }

/-- The body of the loop `for re, fn := range strToDurationMatches` for the
entry numbered `i`: `none` when the expression does not match (the loop goes
on), else the result of the handler, whose error is always `nil`. -/
def durationEntry (L : Lib) (b : Text) (i : Nat) : Option (Option Int) :=
  match strToDurationMatches.get? i with
  | none => none
  | some (re, fn) =>
    match FindAllSubmatch re b with
    | none => none
    | some m => some (fn L m)

/-- The loop `for re, fn := range strToDurationMatches` of `strToDuration`
over the entries in the given order, followed by `return time.Duration(0)`:
the first expression that matches decides. -/
def strToDurationRange (L : Lib) (b : Text) : List Nat → Option Int
  | [] => some 0
  | i :: rest =>
    match durationEntry L b i with
    | none => strToDurationRange L b rest
    | some r => r

/-- `strToDuration(v)`. -/
def strToDuration (L : Lib) (o : TableOrder) (v : Text) : Option Int :=
  match ParseDuration L v with
  | some d => some d
  | none => strToDurationRange L v o.val

/-- `Duration(val)`, in nanoseconds. -/
def Duration (L : Lib) (o : TableOrder) (val : Value) : Option Int :=
  match val with
  | .int n => some n
  | .int8 n => some n
  | .int16 n => some n
  | .int32 n => some n
  | .int64 n => some n
  | .uint n => some (wrapS 64 n)
  | .uint8 n => some n
  | .uint16 n => some n
  | .uint32 n => some n
  | .uint64 n => some (wrapS 64 n)
  | v => (To.String L v).bind (strToDuration L o)

/-! ## Instants -/

/-- `strToTimeFormats`, the constants of package `time` written out. -/
def strToTimeFormats : List Text :=
  ["2006-01-02".toList,
   "2006-01-02 15:04".toList,
   "2006-01-02 15:04:05".toList,
   "2006-01-02 15:04:05.000000000".toList,
   "2006-01-02T15:04:05".toList,
   "2006-01-02T15:04".toList,
   "2006-01-02T15:04:05.000000000".toList,
   "01/02/2006".toList,
   "01/02/2006 15:04".toList,
   "01/02/2006 15:04:05".toList,
   "01/02/2006 15:04:05.000000000".toList,
   "01/02/06".toList,
   "01/02/06 15:04".toList,
   "01/02/06 15:04:05".toList,
   "01/02/06 15:04:05.000000000".toList,
   "Mon Jan _2 15:04:05.000000000 -0700 MST 2006".toList,
   "_2/Jan/2006 15:04:05".toList,
   "Jan _2, 2006".toList,
   "Mon Jan _2 15:04:05 2006".toList,
   "Mon Jan _2 15:04:05 MST 2006".toList,
   "Mon Jan 02 15:04:05 -0700 2006".toList,
   "02 Jan 06 15:04 MST".toList,
   "02 Jan 06 15:04 -0700".toList,
   "Monday, 02-Jan-06 15:04:05 MST".toList,
   "Mon, 02 Jan 2006 15:04:05 MST".toList,
   "Mon, 02 Jan 2006 15:04:05 -0700".toList,
   "2006-01-02T15:04:05Z07:00".toList,
   "2006-01-02T15:04:05.999999999Z07:00".toList,
   "3:04PM".toList,
   "Jan _2 15:04:05".toList,
   "Jan _2 15:04:05.000".toList,
   "Jan _2 15:04:05.000000".toList,
   "Jan _2 15:04:05.000000000".toList]

/-- Whether `time.Parse(layout, "")` is an error on account of the first
character of the layout alone: a layout that starts with a literal character
other than a space, or with a field other than an optional fraction of a
second (`.9`, `,9`), cannot be matched by the empty text. -/
def layoutRejectsEmpty (layout : Text) : Bool :=
  match layout with
  | [] => false
  | c :: _ => decide (c ≠ ' ' ∧ c ≠ '.' ∧ c ≠ ',')

/-- `time.Parse(layout, value)`. -/
def timeParse (L : Lib) (layout value : Text) : Option Instant :=
  if value = [] ∧ layoutRejectsEmpty layout = true then none else L.timeParse layout value

/-- The loop of `Time` over `strToTimeFormats`; the zero instant when no
layout parses the text. -/
def strToTime (L : Lib) (s : Text) : List Text → Instant
  | [] => ⟨0, 0⟩
  | format :: rest =>
    match timeParse L format s with
    | some r => r
    | none => strToTime L s rest

/-- `Time(val)`. -/
def Time (L : Lib) (val : Value) : Option Instant :=
  (To.String L val).map (fun s => strToTime L s strToTimeFormats)

/-! ## Lists and maps -/

/-- `reflect.TypeOf(v).Kind()`; `none` for the nil interface, whose
`reflect.TypeOf` is nil. -/
def Value.kind : Value → Option Kind
  | .nil => none
  | .int _ => some .Int
  | .int8 _ => some .Int8
  | .int16 _ => some .Int16
  | .int32 _ => some .Int32
  | .int64 _ => some .Int64
  | .uint _ => some .Uint
  | .uint8 _ => some .Uint8
  | .uint16 _ => some .Uint16
  | .uint32 _ => some .Uint32
  | .uint64 _ => some .Uint64
  | .float32 _ => some .Float32
  | .float64 _ => some .Float64
  | .complex64 _ _ => some .Complex64
  | .complex128 _ _ => some .Complex128
  | .bool _ => some .Bool
  | .string _ => some .String
  | .bytes _ => some .Slice
  | .slice _ _ => some .Slice
  | .map _ => some .Map
  | .other k _ => some k

/-- The elements `vval.Index(i)` of a slice, as interface values. -/
def Value.elems : Value → List Value
  | .bytes b => b.map (fun c => Value.uint8 c.toNat)
  | .slice _ xs => xs
  | _ => []

/-- The loop `for i := 0; i < size; i++ { vlist.Index(i).Set(vval.Index(i)) }`
of `List` with `k` rounds left, from index `i`; an index out of range panics. -/
def listCopy (vval : List Value) : Nat → Nat → List Value → Option (List Value)
  | 0, _, list => some list
  | k + 1, i, list =>
    match vval.get? i with
    | none => none
    | some x => if i < list.length then listCopy vval k (i + 1) (list.set i x) else none

/-- `List(val)`: for a value of kind slice, a list of `size` nil interfaces
filled by the loop. -/
protected def List (val : Value) : Option (List Value) :=
  match val with
  | .nil => some []
  | v =>
    if v.kind = some Kind.Slice then
      listCopy v.elems v.elems.length 0 (List.replicate v.elems.length Value.nil)
    else some []

/-- `vlist.SetMapIndex(key, elem)` on a `map[string]interface{}` kept as a
list of entries with distinct keys: the entry of `key` is replaced, or added. -/
def setMapIndex (m : List (Text × Value)) (key : Text) (elem : Value) : List (Text × Value) :=
  if m.any (fun e => decide (e.1 = key)) then
    m.map (fun e => if e.1 = key then (key, elem) else e)
  else m ++ [(key, elem)]

/-- Whether the bit pattern of a `float64` is a NaN: exponent all ones and a
non-zero mantissa. -/
def isNaN64 (bits : Nat) : Bool :=
  decide ((bits / 2 ^ 52) % 2 ^ 11 = 2047 ∧ bits % 2 ^ 52 ≠ 0)

/-- Whether the bit pattern of a `float32` is a NaN. -/
def isNaN32 (bits : Nat) : Bool :=
  decide ((bits / 2 ^ 23) % 2 ^ 8 = 255 ∧ bits % 2 ^ 23 ≠ 0)

/-- The comparison `k == k` of a map key with itself, on which the lookup
`vval.MapIndex(vkey)` depends: it fails exactly for a key that is or holds a
NaN. -/
def Value.selfEqual (L : Lib) : Value → Bool
  | .float32 b => ! isNaN32 b
  | .float64 b => ! isNaN64 b
  | .complex64 re im => ! isNaN32 re && ! isNaN32 im
  | .complex128 re im => ! isNaN64 re && ! isNaN64 im
  | .other _ h => L.otherSelfEqual h
  | _ => true

/-- `vlist.SetMapIndex(key, reflect.Value{})`: the entry of `key` is deleted. -/
def deleteMapIndex (m : List (Text × Value)) (key : Text) : List (Text × Value) :=
  m.filter (fun e => ! decide (e.1 = key))

/-- The loop of `Map` over `vval.MapKeys()`.  `vval.MapIndex(vkey)` is the
value of the entry when the lookup of the key succeeds and the zero
`reflect.Value` when it fails; `SetMapIndex` sets the entry for the former and
deletes the key for the latter. -/
def mapRange (L : Lib) : List (Value × Value) → List (Text × Value) → Option (List (Text × Value))
  | [], acc => some acc
  | (k, v) :: rest, acc =>
    match To.String L k with
    | none => none
    | some key =>
      mapRange L rest (if k.selfEqual L then setMapIndex acc key v else deleteMapIndex acc key)

/-- `Map(val)`. -/
protected def Map (L : Lib) (val : Value) : Option (List (Text × Value)) :=
  match val with
  | .nil => some []
  | .map entries => mapRange L entries []
  | _ => some []

/-! ## The dispatcher -/

/-- `reflect.TypeOf(value).Elem().Kind()` of a slice. -/
def Value.elemKind : Value → Option Kind
  | .bytes _ => some .Uint8
  | .slice elem _ => some elem
  | _ => none

/-- The type assertion `value.([]byte)`; it panics for a value of any other
type. -/
def Value.asBytes : Value → Option Text
  | .bytes b => some b
  | _ => none

/-- The two errors of `Convert`: `Could not convert slice into non-slice.` and
`Could not convert %s into %s.` with the two kinds. -/
inductive ConvertError
  | sliceIntoNonSlice
  | unsupported (src dst : Kind)
  deriving DecidableEq

/-- What `Convert` returns: a value with a nil error, or a nil value with an
error. -/
inductive ConvertResult
  | ok (v : Value)
  | error (e : ConvertError)

/-- The outcome of the first `switch` of `Convert`: control leaves it, or the
function returns (`none` being a panic). -/
inductive SliceFlow
  | fallThrough
  | returns (r : Option ConvertResult)

/-- The case `reflect.Slice` of the first `switch` of `Convert`. -/
def convertSlice (L : Lib) (value : Value) (t : Kind) : SliceFlow :=
  match t with
  | .String =>
    if value.elemKind = some Kind.Uint8 then
      .returns (value.asBytes.map (fun b => .ok (.string b)))
    else .returns ((To.String L value).map (fun s => .ok (.string s)))
  | .Slice => .fallThrough
  | _ => .returns (some (.error .sliceIntoNonSlice))

/-- The second `switch` of `Convert` and the final error, for a value of kind
`k`. -/
def convertSwitch (L : Lib) (value : Value) (k : Kind) (t : Kind) : Option ConvertResult :=
  match t with
  | .String => (To.String L value).map (fun s => .ok (.string s))
  | .Uint64 => (Uint64 L value).map (fun n => .ok (.uint64 n))
  | .Uint32 => (Uint32 L value).map (fun n => .ok (.uint32 n))
  | .Uint16 => (Uint16 L value).map (fun n => .ok (.uint16 n))
  | .Uint8 => (Uint8 L value).map (fun n => .ok (.uint8 n))
  | .Uint => (Uint L value).map (fun n => .ok (.uint n))
  | .Int64 => (Int64 L value).map (fun n => .ok (.int64 n))
  | .Int32 => (Int32 L value).map (fun n => .ok (.int32 n))
  | .Int16 => (Int16 L value).map (fun n => .ok (.int16 n))
  | .Int8 => (Int8 L value).map (fun n => .ok (.int8 n))
  | .Int => (To.Int L value).map (fun n => .ok (.int n))
  | .Float64 => (Float64 L value).map (fun f => .ok (.float64 f))
  | .Float32 => (Float32 L value).map (fun f => .ok (.float32 f))
  | .Bool => (To.Bool L value).map (fun b => .ok (.bool b))
  | .Interface => some (.ok value)
  | _ => some (.error (.unsupported k t))

/-- `Convert(value, t)`; `none` is a panic.  `reflect.TypeOf(value)` is nil for
the nil interface, and the call of `Kind` on it panics. -/
def Convert (L : Lib) (value : Value) (t : Kind) : Option ConvertResult :=
  match value.kind with
  | none => none
  | some k =>
    match (if k = Kind.Slice then convertSlice L value t else SliceFlow.fallThrough) with
    | .returns r => r
    | .fallThrough => convertSwitch L value k t

/-! ## Reference notions for the statements -/

/-- The number denoted by a text of decimal digits, most significant first. -/
def decimalValue (t : Text) : Nat :=
  t.foldl (fun acc c => acc * 10 + (c.toNat - '0'.toNat)) 0

/-- The text `t` is the canonical base-10 rendering of `n`: a non-empty
sequence of decimal digits, most significant first, denoting `n`, with no
leading zero unless it is the single digit `0`. -/
def IsCanonicalDecimal (n : Nat) (t : Text) : Prop :=
  t ≠ [] ∧ (∀ c ∈ t, '0' ≤ c ∧ c ≤ '9') ∧ decimalValue t = n ∧ (t.head? = some '0' → t = ['0'])

/-- The decimal digits of `n`, most significant first, by repeated division. -/
def decimal (n : Nat) : Text :=
  if h : n < 10 then [digits.getD (n % 10) '0']
  else decimal (n / 10) ++ [digits.getD (n % 10) '0']
termination_by n
decreasing_by omega

/-- The integer carried by a value of one of the ten integer types. -/
def Value.intValue : Value → Option Int
  | .int n => some n
  | .int8 n => some n
  | .int16 n => some n
  | .int32 n => some n
  | .int64 n => some n
  | .uint n => some n
  | .uint8 n => some n
  | .uint16 n => some n
  | .uint32 n => some n
  | .uint64 n => some n
  | _ => none

/-- The integer carried by a value of an integer type lies in the range of
that type (`int` and `uint` being 64 bits wide). -/
def Value.inRange : Value → Prop
  | .int n => -2 ^ 63 ≤ n ∧ n < 2 ^ 63
  | .int8 n => -2 ^ 7 ≤ n ∧ n < 2 ^ 7
  | .int16 n => -2 ^ 15 ≤ n ∧ n < 2 ^ 15
  | .int32 n => -2 ^ 31 ≤ n ∧ n < 2 ^ 31
  | .int64 n => -2 ^ 63 ≤ n ∧ n < 2 ^ 63
  | .uint n => 0 ≤ n ∧ n < 2 ^ 64
  | .uint8 n => 0 ≤ n ∧ n < 2 ^ 8
  | .uint16 n => 0 ≤ n ∧ n < 2 ^ 16
  | .uint32 n => 0 ≤ n ∧ n < 2 ^ 32
  | .uint64 n => 0 ≤ n ∧ n < 2 ^ 64
  | _ => True

/-- The fraction `F` padded on the right with `0` up to nine characters, or cut
to its first nine. -/
def nineDigits (F : Text) : Text :=
  if F.length < 9 then F ++ List.replicate (9 - F.length) '0' else F.take 9

/-- A non-empty text of decimal digits. -/
def IsDigits (t : Text) : Prop :=
  t ≠ [] ∧ ∀ c ∈ t, '0' ≤ c ∧ c ≤ '9'

/-- The entries of the pattern table visited in the order of the source text. -/
def sourceOrder : TableOrder := ⟨[0, 1, 2], List.Perm.refl _⟩

/-- The entries of the pattern table visited in the reverse order. -/
def reverseOrder : TableOrder := ⟨[2, 1, 0], by decide⟩

/-- The conversion to its own type of a value of one of the ten integer
types: `Int` for an `int`, `Int8` for an `int8`, ..., `Uint64` for a `uint64`. -/
def Value.ownConversion (L : Lib) : Value → Option Int
  | .int n => To.Int L (.int n)
  | .int8 n => Int8 L (.int8 n)
  | .int16 n => Int16 L (.int16 n)
  | .int32 n => Int32 L (.int32 n)
  | .int64 n => Int64 L (.int64 n)
  | .uint n => Uint L (.uint n)
  | .uint8 n => Uint8 L (.uint8 n)
  | .uint16 n => Uint16 L (.uint16 n)
  | .uint32 n => Uint32 L (.uint32 n)
  | .uint64 n => Uint64 L (.uint64 n)
  | _ => none

/-- Whether the dynamic type of the value is one of the integer, float,
boolean or text-string types. -/
def Value.isNumericOrText : Value → Bool
  | .int _ | .int8 _ | .int16 _ | .int32 _ | .int64 _ => true
  | .uint _ | .uint8 _ | .uint16 _ | .uint32 _ | .uint64 _ => true
  | .float32 _ | .float64 _ => true
  | .bool _ => true
  | .string _ => true
  | _ => false

/-- The target tags that the dispatcher recognizes. -/
def recognizedTargets : List Kind :=
  [.String, .Int, .Int8, .Int16, .Int32, .Int64, .Uint, .Uint8, .Uint16, .Uint32, .Uint64,
    .Float32, .Float64, .Bool, .Interface]

/-- The type-specific conversion that belongs to a target tag, its result as
a value of the target type; `none` for a tag without one. -/
def specificConversion (L : Lib) (v : Value) : Kind → Option (Option Value)
  | .String => some ((To.String L v).map Value.string)
  | .Int => some ((To.Int L v).map Value.int)
  | .Int8 => some ((Int8 L v).map Value.int8)
  | .Int16 => some ((Int16 L v).map Value.int16)
  | .Int32 => some ((Int32 L v).map Value.int32)
  | .Int64 => some ((Int64 L v).map Value.int64)
  | .Uint => some ((Uint L v).map Value.uint)
  | .Uint8 => some ((Uint8 L v).map Value.uint8)
  | .Uint16 => some ((Uint16 L v).map Value.uint16)
  | .Uint32 => some ((Uint32 L v).map Value.uint32)
  | .Uint64 => some ((Uint64 L v).map Value.uint64)
  | .Float32 => some ((Float32 L v).map Value.float32)
  | .Float64 => some ((Float64 L v).map Value.float64)
  | .Bool => some ((To.Bool L v).map Value.bool)
  | _ => none

/-- A library whose routines return constants, for closed instances of the
statements. -/
def Lib.trivial : Lib :=
  ⟨fun _ => [], fun _ => [], id, id, fun _ => true, fun _ => 0, fun _ => 0, fun _ => 0,
    fun _ => 0, fun _ => [], fun _ _ => none, fun _ _ _ => 0, fun _ => true, rfl⟩

/-! ## Rendering and parsing of integers -/

theorem drop_set_self {α : Type} (a : α) : ∀ (l : List α) (j : Nat), j < l.length →
    (l.set j a).drop j = a :: l.drop (j + 1) := by
  intro l
  induction l with
  | nil => intro j h; simp at h
  | cons x xs ih =>
    intro j h
    cases j with
    | zero => simp
    | succ j => simpa using ih j (by simpa using h)

theorem decimal_lt_ten (n : Nat) (h : n < 10) : decimal n = [digits.getD (n % 10) '0'] := by
  rw [decimal]; simp [h]

theorem decimal_ge_ten (n : Nat) (h : 10 ≤ n) :
    decimal n = decimal (n / 10) ++ [digits.getD (n % 10) '0'] := by
  rw [decimal]; simp [Nat.not_lt.mpr h]

theorem uint64ToBytesLoop_spec : ∀ (i : Nat) (buf : List Char) (v : Nat),
    1 ≤ i → i ≤ buf.length → v < 10 ^ i →
    ∃ buf1 j v1, uint64ToBytesLoop buf i v = some (buf1, j + 1, v1) ∧
      (buf1.set j (digits.getD (v1 % 10) '0')).drop j = decimal v ++ buf.drop i := by
  intro i
  induction i with
  | zero => intro buf v h; omega
  | succ j ih =>
    intro buf v _ hlen hv
    unfold uint64ToBytesLoop
    by_cases h10 : 10 ≤ v
    · have hj : 1 ≤ j := by
        rcases Nat.eq_zero_or_pos j with h0 | h0
        · subst h0; simp at hv; omega
        · exact h0
      have hv1 : v / 10 < 10 ^ j := by
        rw [Nat.div_lt_iff_lt_mul (by norm_num)]
        rw [pow_succ] at hv; exact hv
      obtain ⟨buf1, j1, v1, h1, h2⟩ :=
        ih (buf.set j (digits.getD (v % 10) '0')) (v / 10) hj (by simp; omega) hv1
      refine ⟨buf1, j1, v1, ?_, ?_⟩
      · simp only [h10, if_true]; exact h1
      · rw [h2, drop_set_self _ _ _ (by omega), decimal_ge_ten v h10]; simp
    · refine ⟨buf, j, v, by simp [h10], ?_⟩
      rw [drop_set_self _ _ _ (by omega), decimal_lt_ten v (by omega)]; simp

theorem uint64ToBytes_eq (v : Nat) (h : v < 2 ^ 64) : uint64ToBytes v = some (decimal v) := by
  have hv : v < 10 ^ 20 := lt_trans h (by norm_num)
  obtain ⟨buf1, j, v1, h1, h2⟩ :=
    uint64ToBytesLoop_spec 20 (List.replicate uintbuflen (Char.ofNat 0)) v (by norm_num)
      (by simp [uintbuflen]) hv
  unfold uint64ToBytes
  simp only [List.length_replicate, uintbuflen] at h1 ⊢
  rw [h1]
  simp only [h2]
  simp [uintbuflen]


theorem digits_getD (d : Nat) (h : d < 10) :
    '0' ≤ digits.getD d '0' ∧ digits.getD d '0' ≤ '9' ∧
      (digits.getD d '0').toNat - '0'.toNat = d := by
  interval_cases d <;> decide

theorem decimalValue_append_singleton (t : Text) (c : Char) :
    decimalValue (t ++ [c]) = decimalValue t * 10 + (c.toNat - '0'.toNat) := by
  simp [decimalValue, List.foldl_append]

theorem decimal_canonical (n : Nat) : IsCanonicalDecimal n (decimal n) := by
  induction n using Nat.strong_induction_on with
  | _ n ih =>
    have hd := digits_getD (n % 10) (Nat.mod_lt _ (by norm_num))
    by_cases h : n < 10
    · rw [decimal_lt_ten n h]
      refine ⟨by simp, ?_, ?_, ?_⟩
      · intro c hc
        simp only [List.mem_singleton] at hc
        subst hc; exact ⟨hd.1, hd.2.1⟩
      · simp only [decimalValue, List.foldl_cons, List.foldl_nil, Nat.zero_mul, Nat.zero_add]
        rw [hd.2.2]; exact Nat.mod_eq_of_lt h
      · intro h0
        simpa using h0
    · have h10 : 10 ≤ n := Nat.not_lt.mp h
      obtain ⟨hne, hdig, hval, hlead⟩ := ih (n / 10) (by omega)
      rw [decimal_ge_ten n h10]
      refine ⟨by simp, ?_, ?_, ?_⟩
      · intro c hc
        rcases List.mem_append.mp hc with hc | hc
        · exact hdig c hc
        · simp only [List.mem_singleton] at hc
          subst hc; exact ⟨hd.1, hd.2.1⟩
      · rw [decimalValue_append_singleton, hval, hd.2.2]; omega
      · intro h0
        exfalso
        have h1 : (decimal (n / 10)).head? = some '0' := by
          cases hq : decimal (n / 10) with
          | nil => exact absurd hq hne
          | cons x xs => rw [hq] at h0; simpa using h0
        have h2 := hlead h1
        rw [h2] at hval
        simp [decimalValue] at hval
        omega

theorem decimal_length_le : ∀ (k n : Nat), n < 10 ^ (k + 1) → (decimal n).length ≤ k + 1 := by
  intro k
  induction k with
  | zero =>
    intro n h
    rw [decimal_lt_ten n (by simpa using h)]; simp
  | succ k ih =>
    intro n h
    by_cases h10 : n < 10
    · rw [decimal_lt_ten n h10]; simp
    · rw [decimal_ge_ten n (Nat.not_lt.mp h10)]
      have : n / 10 < 10 ^ (k + 1) := by
        rw [Nat.div_lt_iff_lt_mul (by norm_num)]
        rw [pow_succ] at h; exact h
      have := ih (n / 10) this
      simp; omega

theorem int64ToBytes_eq (v : Int) (h1 : -2 ^ 63 ≤ v) (h2 : v < 2 ^ 63) :
    int64ToBytes v = some (if v < 0 then '-' :: decimal v.natAbs else decimal v.natAbs) := by
  unfold int64ToBytes
  by_cases hneg : v < 0
  · have e : (wrapU 64 (wrapS 64 (-v))).toNat = v.natAbs := by
      simp only [wrapU, wrapS]; norm_num; omega
    have hb : v.natAbs < 2 ^ 64 := by norm_num; omega
    simp only [hneg, if_true, e, uint64ToBytes_eq _ hb]
    simp
  · have e : (wrapU 64 v).toNat = v.natAbs := by
      simp only [wrapU]; norm_num; omega
    have hb : v.natAbs < 2 ^ 64 := by norm_num; omega
    simp only [hneg, if_false, e, uint64ToBytes_eq _ hb]
    simp


/-- The accumulator of `decimalValue`, from `n`. -/
theorem foldl_digits_ge (t : Text) : ∀ n : Nat,
    n ≤ t.foldl (fun acc c => acc * 10 + (c.toNat - '0'.toNat)) n := by
  induction t with
  | nil => intro n; simp
  | cons c cs ih =>
    intro n
    simp only [List.foldl_cons]
    exact le_trans (by omega) (ih _)

theorem parseUintLoop_digits (t : Text) : ∀ n : Nat, (∀ c ∈ t, '0' ≤ c ∧ c ≤ '9') →
    t.foldl (fun acc c => acc * 10 + (c.toNat - '0'.toNat)) n < 2 ^ 64 →
    parseUintLoop t n = (t.foldl (fun acc c => acc * 10 + (c.toNat - '0'.toNat)) n, none) := by
  induction t with
  | nil => intro n _ _; simp [parseUintLoop]
  | cons c cs ih =>
    intro n hd hb
    have hc := hd c (List.mem_cons_self _ _)
    simp only [List.foldl_cons] at hb ⊢
    have hge := foldl_digits_ge cs (n * 10 + (c.toNat - '0'.toNat))
    have h1 : n * 10 + (c.toNat - '0'.toNat) < 2 ^ 64 := lt_of_le_of_lt hge hb
    have h2 : ¬ ((2 ^ 64 - 1) / 10 + 1 ≤ n) := by norm_num at h1 ⊢; omega
    have h3 : ¬ (2 ^ 64 - 1 < n * 10 + (c.toNat - '0'.toNat)) := by norm_num at h1 ⊢; omega
    unfold parseUintLoop
    simp only [hc, and_self, if_true, h2, h3, if_false]
    exact ih _ (fun x hx => hd x (List.mem_cons_of_mem _ hx)) hb

theorem ParseUint_digits (t : Text) (hne : t ≠ []) (hd : ∀ c ∈ t, '0' ≤ c ∧ c ≤ '9')
    (hb : decimalValue t < 2 ^ 64) : ParseUint t = (decimalValue t, none) := by
  unfold ParseUint
  simp only [hne, if_false]
  exact parseUintLoop_digits t 0 hd hb

theorem digit_not_sign (c : Char) (h : '0' ≤ c ∧ c ≤ '9') : c ≠ '+' ∧ c ≠ '-' := by
  constructor
  · rintro rfl; exact absurd h.1 (by decide)
  · rintro rfl; exact absurd h.1 (by decide)

theorem ParseInt_digits (t : Text) (hne : t ≠ []) (hd : ∀ c ∈ t, '0' ≤ c ∧ c ≤ '9')
    (hb : decimalValue t < 2 ^ 63) : ParseInt t = ((decimalValue t : Int), none) := by
  cases t with
  | nil => exact absurd rfl hne
  | cons c cs =>
    have hs := digit_not_sign c (hd c (List.mem_cons_self _ _))
    have hu := ParseUint_digits (c :: cs) hne hd (lt_trans hb (by norm_num))
    unfold ParseInt
    simp only [hs.1, hs.2, or_self, if_false, hu, decide_False]
    have hw : wrapS 64 ((decimalValue (c :: cs) : Nat) : Int) = (decimalValue (c :: cs) : Int) := by
      simp only [wrapS]; norm_num at hb ⊢; omega
    have hlt : ¬ (2 ^ 63 ≤ decimalValue (c :: cs)) := not_le.mpr hb
    simp only [hlt, hw, not_false_eq_true, and_false, and_true, false_and, if_false, if_true, Bool.false_eq_true]

theorem ParseInt_neg_digits (t : Text) (hne : t ≠ []) (hd : ∀ c ∈ t, '0' ≤ c ∧ c ≤ '9')
    (hb : decimalValue t ≤ 2 ^ 63) : ParseInt ('-' :: t) = (-(decimalValue t : Int), none) := by
  have hu := ParseUint_digits t hne hd (lt_of_le_of_lt hb (by norm_num))
  unfold ParseInt
  have hw : wrapS 64 (-(wrapS 64 ((decimalValue t : Nat) : Int))) = -(decimalValue t : Int) := by
    simp only [wrapS]; norm_num at hb ⊢; omega
  have hlt : ¬ (2 ^ 63 < decimalValue t) := not_lt.mpr hb
  norm_num [hu, hw]
  intro h
  norm_num at hb; omega

/-- C2: for every signed 64-bit integer `v` (the minimum `-2^63` included),
`String(v)` is the canonical base-10 rendering of `|v|`, preceded by `-`
exactly when `v < 0`; for every unsigned 64-bit integer `u`, `String(u)` is
the canonical base-10 rendering of `u`.  Both fit in the buffer of
`uintbuflen = 20` bytes, so the rendering does not panic. -/
theorem String_integer_canonical (L : Lib) (v u : Int) (hv1 : -2 ^ 63 ≤ v) (hv2 : v < 2 ^ 63)
    (hu1 : 0 ≤ u) (hu2 : u < 2 ^ 64) :
    (∃ t, IsCanonicalDecimal v.natAbs t ∧ t.length ≤ uintbuflen ∧
      To.String L (.int64 v) = some (if v < 0 then '-' :: t else t)) ∧
    (∃ t, IsCanonicalDecimal u.toNat t ∧ t.length ≤ uintbuflen ∧
      To.String L (.uint64 u) = some t) := by
  constructor
  · refine ⟨decimal v.natAbs, decimal_canonical _, ?_, ?_⟩
    · exact decimal_length_le 19 _ (lt_of_le_of_lt (by omega : v.natAbs ≤ 2 ^ 63) (by norm_num))
    · simp only [To.String]; exact int64ToBytes_eq v hv1 hv2
  · refine ⟨decimal u.toNat, decimal_canonical _, ?_, ?_⟩
    · exact decimal_length_le 19 _ (lt_trans (by omega : u.toNat < 2 ^ 64) (by norm_num))
    · simp only [To.String]; exact uint64ToBytes_eq _ (by omega)

/-- C2, at the two extreme values `-2^63` and `2^64 - 1`. -/
theorem String_integer_canonical_witness :
    (∃ t, IsCanonicalDecimal (-9223372036854775808 : Int).natAbs t ∧ t.length ≤ uintbuflen ∧
      To.String Lib.trivial (.int64 (-9223372036854775808)) =
        some (if (-9223372036854775808 : Int) < 0 then '-' :: t else t)) ∧
    (∃ t, IsCanonicalDecimal (18446744073709551615 : Int).toNat t ∧ t.length ≤ uintbuflen ∧
      To.String Lib.trivial (.uint64 18446744073709551615) = some t) :=
  String_integer_canonical Lib.trivial (-9223372036854775808) 18446744073709551615
    (by decide) (by decide) (by decide) (by decide)

/-- C1: for every signed 64-bit integer `n` (the minimum `-2^63` included),
`String(n)` returns a text and `Int64` of that text is `n`. -/
theorem Int64_String_roundtrip (L : Lib) (n : Int) (h1 : -2 ^ 63 ≤ n) (h2 : n < 2 ^ 63) :
    (To.String L (.int64 n)).bind (fun s => Int64 L (.string s)) = some n := by
  obtain ⟨hne, hd, hval, _⟩ := decimal_canonical n.natAbs
  have hs : To.String L (.int64 n) =
      some (if n < 0 then '-' :: decimal n.natAbs else decimal n.natAbs) := by
    simp only [To.String]; exact int64ToBytes_eq n h1 h2
  rw [hs]
  simp only [Option.some_bind, Int64, To.String, Option.map_some']
  by_cases hneg : n < 0
  · simp only [hneg, if_true]
    rw [ParseInt_neg_digits _ hne hd (by rw [hval]; omega), hval]
    congr 1; omega
  · simp only [hneg, if_false]
    rw [ParseInt_digits _ hne hd (by rw [hval]; omega), hval]
    congr 1; omega

/-- C1, at the minimum value `-2^63`. -/
theorem Int64_String_roundtrip_witness :
    (To.String Lib.trivial (.int64 (-9223372036854775808))).bind
      (fun s => Int64 Lib.trivial (.string s)) = some (-9223372036854775808) :=
  Int64_String_roundtrip Lib.trivial (-9223372036854775808) (by decide) (by decide)

/-! ## The clock-style patterns -/

theorem mem_of_tableOrder (o : TableOrder) (j : Nat) : j ∈ o.val ↔ j = 0 ∨ j = 1 ∨ j = 2 := by
  rw [o.property.mem_iff]; simp

/-- When exactly one entry of the table matches the text, the loop returns the
result of its handler, whatever the order of the entries. -/
theorem strToDurationRange_only (L : Lib) (b : Text) (i : Nat) (r : Option Int)
    (hi : durationEntry L b i = some r) :
    ∀ l : List Nat, i ∈ l → (∀ j ∈ l, j ≠ i → durationEntry L b j = none) →
      strToDurationRange L b l = r := by
  intro l
  induction l with
  | nil => intro h; simp at h
  | cons j rest ih =>
    intro hmem hothers
    by_cases hj : j = i
    · subst hj; simp [strToDurationRange, hi]
    · have hn := hothers j (List.mem_cons_self _ _) hj
      simp only [strToDurationRange, hn]
      refine ih ?_ (fun x hx => hothers x (List.mem_cons_of_mem _ hx))
      rcases List.mem_cons.mp hmem with h | h
      · exact absurd h.symm hj
      · exact h

/-- When no entry of the table matches the text, the loop falls through to
`time.Duration(0)`. -/
theorem strToDurationRange_none (L : Lib) (b : Text) :
    ∀ l : List Nat, (∀ j ∈ l, durationEntry L b j = none) → strToDurationRange L b l = some 0 := by
  intro l
  induction l with
  | nil => intro _; rfl
  | cons j rest ih =>
    intro h
    simp only [strToDurationRange, h j (List.mem_cons_self _ _)]
    exact ih (fun x hx => h x (List.mem_cons_of_mem _ hx))

/-! ## The nil value -/

theorem strToTime_empty (L : Lib) : ∀ formats : List Text,
    (∀ f ∈ formats, layoutRejectsEmpty f = true) → strToTime L [] formats = ⟨0, 0⟩ := by
  intro formats
  induction formats with
  | nil => intro _; rfl
  | cons f rest ih =>
    intro h
    simp only [strToTime, timeParse, h f (List.mem_cons_self _ _), and_self, if_true]
    exact ih (fun x hx => h x (List.mem_cons_of_mem _ hx))

/-- C3: each conversion of the nil value returns the zero value of its target:
the empty text, the empty byte sequence, `0` for the ten integer targets and
the two float targets, `false`, the empty list, the empty map, the zero
instant and the zero duration (in every order of the pattern table). -/
theorem nil_zero_value (L : Lib) (o : TableOrder) :
    To.String L .nil = some [] ∧ Bytes L .nil = some [] ∧
    To.Int L .nil = some 0 ∧ Int8 L .nil = some 0 ∧ Int16 L .nil = some 0 ∧
    Int32 L .nil = some 0 ∧ Int64 L .nil = some 0 ∧
    Uint L .nil = some 0 ∧ Uint8 L .nil = some 0 ∧ Uint16 L .nil = some 0 ∧
    Uint32 L .nil = some 0 ∧ Uint64 L .nil = some 0 ∧
    Float32 L .nil = some 0 ∧ Float64 L .nil = some 0 ∧
    To.Bool L .nil = some false ∧
    To.List .nil = some [] ∧ To.Map L .nil = some [] ∧
    Time L .nil = some ⟨0, 0⟩ ∧ Duration L o .nil = some 0 := by
  have hi : Int64 L .nil = some 0 := by simp [Int64, To.String, ParseInt]
  have hu : Uint64 L .nil = some 0 := rfl
  refine ⟨rfl, rfl, ?_, ?_, ?_, ?_, hi, ?_, ?_, ?_, ?_, hu, ?_, rfl, ?_, rfl, rfl, ?_, ?_⟩
  · simp only [To.Int, hi]; rfl
  · simp only [Int8, hi]; rfl
  · simp only [Int16, hi]; rfl
  · simp only [Int32, hi]; rfl
  · simp only [Uint, hu]; rfl
  · simp only [Uint8, hu]; rfl
  · simp only [Uint16, hu]; rfl
  · simp only [Uint32, hu]; rfl
  · simp [Float32, Float64, L.float64To32_zero]
  · simp [To.Bool, To.String, ParseBool]
  · simp only [Time, To.String, Option.map_some']
    rw [strToTime_empty L strToTimeFormats (by decide)]
  · simp only [Duration, To.String, Option.some_bind, strToDuration]
    have hp : ParseDuration L [] = none := by simp [ParseDuration]
    rw [hp]
    refine strToDurationRange_none L [] o.val (fun j hj => ?_)
    rcases (mem_of_tableOrder o j).mp hj with h | h | h <;> subst h <;> rfl

/-! ## Texts that do not parse as a number -/

/-- C4: the text `99999999999999999999` is a well-formed literal out of the
64-bit range; `Int64` returns `2^63 - 1` for it and `Uint64` returns
`2^64 - 1`, the values with which `strconv` accompanies its range error, and
not `0`. -/
theorem Int64_out_of_range (L : Lib) :
    Int64 L (.string "99999999999999999999".toList) = some 9223372036854775807 ∧
    Uint64 L (.string "99999999999999999999".toList) = some 18446744073709551615 ∧
    (ParseInt "99999999999999999999".toList).2 = some NumError.errRange := by
  refine ⟨?_, ?_, ?_⟩
  · simp only [Int64, To.String, Option.map_some']; decide
  · simp only [Uint64]; decide
  · decide

/-! ## Clock-style durations: `time.ParseDuration` rejects them -/

theorem Int64_bytes (L : Lib) (g : Text) : Int64 L (.bytes g) = some (ParseInt g).1 := rfl

theorem durationEntry_lib (L : Lib) (b : Text) (i : Nat) :
    durationEntry L b i = durationEntry Lib.trivial b i := by
  unfold durationEntry
  match i with
  | 0 => simp only [strToDurationMatches, List.get?, handleHM, Int64_bytes]
  | 1 => simp only [strToDurationMatches, List.get?, handleHMS, Int64_bytes]
  | 2 => simp only [strToDurationMatches, List.get?, handleHMSF, Int64_bytes]
  | _ + 3 => simp only [strToDurationMatches, List.get?]

theorem leadingInt_digits (H : Text) (hd : ∀ c ∈ H, '0' ≤ c ∧ c ≤ '9') (r : Text)
    (hr : ∀ c ∈ r.head?, c < '0' ∨ '9' < c) :
    ∀ x : Nat, leadingInt (H ++ r) x = none ∨ ∃ v, leadingInt (H ++ r) x = some (v, r) := by
  induction H with
  | nil =>
    intro x
    right
    cases r with
    | nil => exact ⟨x, rfl⟩
    | cons c cs =>
      have := hr c (by simp)
      exact ⟨x, by simp [leadingInt, this]⟩
  | cons c cs ih =>
    intro x
    have hc := hd c (List.mem_cons_self _ _)
    have hc' : ¬ (c < '0' ∨ '9' < c) := by
      rintro (h | h)
      · exact absurd hc.1 (not_le.mpr h)
      · exact absurd hc.2 (not_le.mpr h)
    simp only [List.cons_append, leadingInt, hc', if_false]
    by_cases h1 : 2 ^ 63 / 10 < x
    · left; rw [if_pos h1]
    · simp only [h1, if_false]
      by_cases h2 : 2 ^ 63 < x * 10 + (c.toNat - '0'.toNat)
      · left; rw [if_pos h2]
      · simp only [h2, if_false]
        exact ih (fun y hy => hd y (List.mem_cons_of_mem _ hy)) _


theorem isDotOrDigit_digit (c : Char) (h : '0' ≤ c ∧ c ≤ '9') : isDotOrDigit c = true := by
  simp [isDotOrDigit, h]

theorem parseDurationLoop_clock (L : Lib) (fuel d : Nat) (h0 : Char) (H rest : Text) (c : Char)
    (hd : ∀ x ∈ h0 :: H, '0' ≤ x ∧ x ≤ '9') (hc : '0' ≤ c ∧ c ≤ '9') :
    parseDurationLoop L (fuel + 1) (h0 :: H ++ ':' :: c :: rest) d = none := by
  have hh := isDotOrDigit_digit h0 (hd h0 (List.mem_cons_self _ _))
  have hcd := isDotOrDigit_digit c hc
  have hcolon : isDotOrDigit ':' = false := by decide
  have hli := leadingInt_digits (h0 :: H) hd (':' :: c :: rest)
    (by intro x hx; simp at hx; subst hx; decide) 0
  simp only [List.cons_append] at hli
  simp only [List.cons_append, parseDurationLoop, hh]
  rcases hli with h | ⟨v, h⟩
  · simp [h]
  · simp [h, List.takeWhile, hcolon, hcd, unitMap]

theorem ParseDuration_clock (L : Lib) (neg : Bool) (H rest : Text) (c : Char) (hne : H ≠ [])
    (hd : ∀ x ∈ H, '0' ≤ x ∧ x ≤ '9') (hc : '0' ≤ c ∧ c ≤ '9') :
    ParseDuration L ((if neg = true then ['-'] else []) ++ H ++ ':' :: c :: rest) = none := by
  cases H with
  | nil => exact absurd rfl hne
  | cons h0 H =>
    have hs := digit_not_sign h0 (hd h0 (List.mem_cons_self _ _))
    have hloop := fun fuel => parseDurationLoop_clock L fuel 0 h0 H rest c hd hc
    simp only [List.cons_append] at hloop
    cases neg with
    | true =>
      simp only [ParseDuration, if_true, List.cons_append, List.nil_append, List.head?_cons,
        List.tail_cons, true_or, List.length_cons, hloop]
      simp
    | false =>
      simp only [ParseDuration, List.cons_append, List.nil_append, List.head?_cons,
        List.length_cons, hloop]
      simp [hs.1, hs.2, hloop]

theorem strToDurationRange_lib (L : Lib) (b : Text) (l : List Nat) :
    strToDurationRange L b l = strToDurationRange Lib.trivial b l := by
  induction l with
  | nil => rfl
  | cons i rest ih => simp only [strToDurationRange, durationEntry_lib L, ih]

theorem Duration_string_of_clock (L : Lib) (o : TableOrder) (s : Text)
    (hp : ParseDuration L s = none) :
    Duration L o (.string s) = strToDurationRange Lib.trivial s o.val := by
  simp only [Duration, To.String, Option.some_bind, strToDuration, hp]
  exact strToDurationRange_lib L s o.val

/-! ## Clock-style durations at particular texts -/

set_option maxRecDepth 4000 in
/-- C5: for the text `-0:30` the hour component carries a `-`, yet `Duration`
returns plus thirty minutes in every order of the pattern table: the sign is
read off the number of hours, which is `0`. -/
theorem Duration_minus_zero_hours (L : Lib) (o : TableOrder) :
    Duration L o (.string "-0:30".toList) = some (30 * Minute) := by
  have hp : ParseDuration L "-0:30".toList = none :=
    ParseDuration_clock L true ['0'] ['0'] '3' (by decide) (by decide) (by decide)
  rw [Duration_string_of_clock L o _ hp]
  refine strToDurationRange_only Lib.trivial _ 0 _ (by decide) o.val ?_ ?_
  · exact (mem_of_tableOrder o 0).mpr (Or.inl rfl)
  · intro j hj hne
    rcases (mem_of_tableOrder o j).mp hj with h | h | h <;> subst h
    · exact absurd rfl hne
    · decide
    · decide

set_option maxRecDepth 4000 in
/-- C6: the text `1:30:123` is matched by `^(\-?\d+):(\d+):(\d+)$` and, its
`.` standing for any character, by `^(\-?\d+):(\d+):(\d+).(\d+)$` as
`1:30:1`, `2`, `3`.  When the entries are visited in the order of the source
text `Duration` returns 1h30m123s; when the third entry is visited before the
second it returns 1h30m1.3s. -/
theorem Duration_three_digit_seconds (L : Lib) :
    Duration L sourceOrder (.string "1:30:123".toList)
      = some (1 * Hour + 30 * Minute + 123 * Second) ∧
    Duration L reverseOrder (.string "1:30:123".toList)
      = some (1 * Hour + 30 * Minute + 1 * Second + 300000000) ∧
    (1 * Hour + 30 * Minute + 1 * Second + 300000000 : Int)
      ≠ 1 * Hour + 30 * Minute + 123 * Second := by
  have hp : ParseDuration L "1:30:123".toList = none :=
    ParseDuration_clock L false ['1'] "0:123".toList '3' (by decide) (by decide) (by decide)
  refine ⟨?_, ?_, by decide⟩
  · rw [Duration_string_of_clock L _ _ hp]; decide
  · rw [Duration_string_of_clock L _ _ hp]; decide

set_option maxRecDepth 4000 in
/-- The texts `1:30`, `-1:30` and `1:30:15` yield 1h30m, -1h30m and 1h30m15s in
every order of the pattern table: each is matched by one expression only. -/
theorem Duration_clock_examples (L : Lib) (o : TableOrder) :
    Duration L o (.string "1:30".toList) = some (1 * Hour + 30 * Minute) ∧
    Duration L o (.string "-1:30".toList) = some (-(1 * Hour + 30 * Minute)) ∧
    Duration L o (.string "1:30:15".toList) = some (1 * Hour + 30 * Minute + 15 * Second) := by
  have hp1 : ParseDuration L "1:30".toList = none :=
    ParseDuration_clock L false ['1'] ['0'] '3' (by decide) (by decide) (by decide)
  have hp2 : ParseDuration L "-1:30".toList = none :=
    ParseDuration_clock L true ['1'] ['0'] '3' (by decide) (by decide) (by decide)
  have hp3 : ParseDuration L "1:30:15".toList = none :=
    ParseDuration_clock L false ['1'] "0:15".toList '3' (by decide) (by decide) (by decide)
  rw [Duration_string_of_clock L o _ hp1, Duration_string_of_clock L o _ hp2,
    Duration_string_of_clock L o _ hp3]
  refine ⟨?_, ?_, ?_⟩
  · refine strToDurationRange_only Lib.trivial _ 0 _ (by decide) o.val
      ((mem_of_tableOrder o 0).mpr (Or.inl rfl)) (fun j hj hne => ?_)
    rcases (mem_of_tableOrder o j).mp hj with h | h | h <;> subst h
    · exact absurd rfl hne
    · decide
    · decide
  · refine strToDurationRange_only Lib.trivial _ 0 _ (by decide) o.val
      ((mem_of_tableOrder o 0).mpr (Or.inl rfl)) (fun j hj hne => ?_)
    rcases (mem_of_tableOrder o j).mp hj with h | h | h <;> subst h
    · exact absurd rfl hne
    · decide
    · decide
  · refine strToDurationRange_only Lib.trivial _ 1 _ (by decide) o.val
      ((mem_of_tableOrder o 1).mpr (Or.inr (Or.inl rfl))) (fun j hj hne => ?_)
    rcases (mem_of_tableOrder o j).mp hj with h | h | h <;> subst h
    · decide
    · exact absurd rfl hne
    · decide

/-! ## Durations from integers -/

/-- C8, as stated, fails at the `uint64` value `2^64 - 1`: `Duration` returns
`-1` nanosecond, the `int64` with the same bits. -/
theorem Duration_uint64_max :
    Duration Lib.trivial sourceOrder (.uint64 18446744073709551615) = some (-1) ∧
    Duration Lib.trivial sourceOrder (.uint64 18446744073709551615)
      ≠ some 18446744073709551615 := by
  constructor <;> decide

/-- C8, amended: for every value of an integer type carrying the integer `n`,
`Duration` returns `n` nanoseconds when `n < 2^63`, which is always so for the
signed types and for `uint8`, `uint16`, `uint32`, and `n - 2^64` nanoseconds
otherwise. -/
theorem Duration_integer (L : Lib) (o : TableOrder) (v : Value) (n : Int)
    (hv : v.intValue = some n) (hr : v.inRange) :
    Duration L o v = some (if n < 2 ^ 63 then n else n - 2 ^ 64) := by
  cases v <;> simp only [Value.intValue, Option.some.injEq] at hv <;> try contradiction
  all_goals
    subst hv
    simp only [Value.inRange] at hr
    simp only [Duration, wrapS, Option.some.injEq]
    norm_num at hr ⊢
    split_ifs <;> omega

/-- C8, amended, at the `int` value `5000000000`: five seconds. -/
theorem Duration_integer_witness :
    Duration Lib.trivial sourceOrder (.int 5000000000)
      = some (if (5000000000 : Int) < 2 ^ 63 then 5000000000 else 5000000000 - 2 ^ 64) :=
  Duration_integer Lib.trivial sourceOrder (.int 5000000000) 5000000000 rfl
    (by simp only [Value.inRange]; norm_num)

/-! ## Booleans -/

theorem String_total (L : Lib) (x : Value) (h : x.inRange) : ∃ s, To.String L x = some s := by
  cases x <;> simp only [Value.inRange] at h <;> simp only [To.String]
  case int n => exact ⟨_, int64ToBytes_eq n h.1 h.2⟩
  case int8 n => exact ⟨_, int64ToBytes_eq n (by norm_num at h ⊢; omega) (by norm_num at h ⊢; omega)⟩
  case int16 n => exact ⟨_, int64ToBytes_eq n (by norm_num at h ⊢; omega) (by norm_num at h ⊢; omega)⟩
  case int32 n => exact ⟨_, int64ToBytes_eq n (by norm_num at h ⊢; omega) (by norm_num at h ⊢; omega)⟩
  case int64 n => exact ⟨_, int64ToBytes_eq n h.1 h.2⟩
  case uint n => exact ⟨_, uint64ToBytes_eq _ (by norm_num at h ⊢; omega)⟩
  case uint8 n => exact ⟨_, uint64ToBytes_eq _ (by norm_num at h ⊢; omega)⟩
  case uint16 n => exact ⟨_, uint64ToBytes_eq _ (by norm_num at h ⊢; omega)⟩
  case uint32 n => exact ⟨_, uint64ToBytes_eq _ (by norm_num at h ⊢; omega)⟩
  case uint64 n => exact ⟨_, uint64ToBytes_eq _ (by norm_num at h ⊢; omega)⟩
  case bool b => cases b <;> simp
  all_goals exact ⟨_, rfl⟩

/-- C9: for every value `x`, `Bool(x)` returns a boolean `b`, and
`Bool(String(b))` is `b` again. -/
theorem Bool_String_Bool (L : Lib) (x : Value) (h : x.inRange) :
    ∃ b, To.Bool L x = some b ∧
      (To.String L (.bool b)).bind (fun s => To.Bool L (.string s)) = some b := by
  obtain ⟨s, hs⟩ := String_total L x h
  refine ⟨(ParseBool s).1, by simp [To.Bool, hs], ?_⟩
  cases (ParseBool s).1 <;> simp [To.Bool, To.String, ParseBool]

/-- C9, at the text `T`, which `Bool` converts to `true`. -/
theorem Bool_String_Bool_witness :
    ∃ b, To.Bool Lib.trivial (.string ['T']) = some b ∧
      (To.String Lib.trivial (.bool b)).bind (fun s => To.Bool Lib.trivial (.string s))
        = some b :=
  Bool_String_Bool Lib.trivial (.string ['T']) (by simp only [Value.inRange])

/-- C10, as stated, fails at the text `tRUE`: it equals `true` when the case
of its letters is ignored, and `Bool` returns `false` for it. -/
theorem Bool_mixed_case :
    "tRUE".toList.map Char.toLower = "true".toList ∧
    To.Bool Lib.trivial (.string "tRUE".toList) = some false := by
  constructor <;> decide

/-- C10, amended: for every text `s`, `Bool(s)` is `true` exactly when `s` is
one of the six texts `1`, `t`, `T`, `true`, `TRUE`, `True`, and `false` for
every other text, among them `0`, `f`, `F`, `false`, `FALSE`, `False` and
every other mix of upper and lower case. -/
theorem Bool_string (L : Lib) (s : Text) :
    To.Bool L (.string s) = some (decide (s ∈ ["1".toList, "t".toList, "T".toList,
      "true".toList, "TRUE".toList, "True".toList])) := by
  simp only [To.Bool, To.String, Option.map_some', ParseBool]
  have e : ["1".toList, "t".toList, "T".toList, "true".toList, "TRUE".toList, "True".toList]
      = [['1'], ['t'], ['T'], ['t', 'r', 'u', 'e'], ['T', 'R', 'U', 'E'],
        ['T', 'r', 'u', 'e']] := by decide
  rw [e]
  split_ifs with h1 h2 <;> simp [h1]

/-! ## Matching the regular expressions -/

theorem many1_longest {α : Type} (p : Char → Bool) (k : Text → Nat → Option α) (r : α)
    (rest : Text) (hrest : ∀ c ∈ rest.head?, p c = false) :
    ∀ (ds : Text) (pos : Nat), ds ≠ [] → (∀ c ∈ ds, p c = true) →
      k rest (pos + ds.length) = some r → many1 p k (ds ++ rest) pos = some r := by
  intro ds
  induction ds with
  | nil => intro pos h; exact absurd rfl h
  | cons d ds ih =>
    intro pos _ hp hk
    have hd := hp d (List.mem_cons_self _ _)
    simp only [List.cons_append, many1, hd, if_true, List.append_eq]
    cases ds with
    | nil =>
      have hnone : many1 p k ([] ++ rest) (pos + 1) = none := by
        cases rest with
        | nil => rfl
        | cons x xs => simp [many1, hrest x (by simp)]
      rw [hnone]
      simpa using hk
    | cons e es =>
      have := ih (pos + 1) (by simp) (fun c hc => hp c (List.mem_cons_of_mem _ hc))
        (by rw [← hk]; congr 1; simp; omega)
      rw [this]

theorem many1_none {α : Type} (p : Char → Bool) (k : Text → Nat → Option α)
    (rest : Text) (hrest : ∀ c ∈ rest.head?, p c = false)
    (hk : ∀ (t : Text) (pos : Nat), (∀ c ∈ t, p c = true) → k (t ++ rest) pos = none) :
    ∀ (ds : Text) (pos : Nat), (∀ c ∈ ds, p c = true) → many1 p k (ds ++ rest) pos = none := by
  intro ds
  induction ds with
  | nil =>
    intro pos _
    cases rest with
    | nil => rfl
    | cons x xs => simp [many1, hrest x (by simp)]
  | cons d ds ih =>
    intro pos hp
    have hd := hp d (List.mem_cons_self _ _)
    have hds : ∀ c ∈ ds, p c = true := fun c hc => hp c (List.mem_cons_of_mem _ hc)
    simp only [List.cons_append, many1, hd, if_true, List.append_eq, ih (pos + 1) hds,
      hk ds (pos + 1) hds]


theorem matchPieces_plus (c : Cls) (ps : List Piece) (ds rest : Text) (pos : Nat)
    (os caps : List Text) (r : Text × MState) (hne : ds ≠ []) (hds : ∀ x ∈ ds, c.test x = true)
    (hrest : ∀ x ∈ rest.head?, c.test x = false)
    (h : matchPieces ps rest ⟨pos + ds.length, os, caps⟩ = some r) :
    matchPieces (.plus c :: ps) (ds ++ rest) ⟨pos, os, caps⟩ = some r := by
  rw [matchPieces]
  exact many1_longest c.test _ r rest hrest ds pos hne hds h

theorem matchPieces_plus_none (c : Cls) (ps : List Piece) (ds rest : Text) (pos : Nat)
    (os caps : List Text) (hds : ∀ x ∈ ds, c.test x = true)
    (hrest : ∀ x ∈ rest.head?, c.test x = false)
    (h : ∀ (t : Text) (pos1 : Nat), (∀ x ∈ t, c.test x = true) →
      matchPieces ps (t ++ rest) ⟨pos1, os, caps⟩ = none) :
    matchPieces (.plus c :: ps) (ds ++ rest) ⟨pos, os, caps⟩ = none := by
  rw [matchPieces]
  exact many1_none c.test _ rest hrest h ds pos hds

theorem matchPieces_openG (ps : List Piece) (inp : Text) (pos : Nat) (os caps : List Text) :
    matchPieces (.openG :: ps) inp ⟨pos, os, caps⟩ = matchPieces ps inp ⟨pos, inp :: os, caps⟩ := by
  rw [matchPieces]

theorem matchPieces_closeG (ps : List Piece) (inp : Text) (pos : Nat) (o : Text)
    (os caps : List Text) :
    matchPieces (.closeG :: ps) inp ⟨pos, o :: os, caps⟩
      = matchPieces ps inp ⟨pos, os, caps ++ [o.take (o.length - inp.length)]⟩ := by
  rw [matchPieces]

theorem matchPieces_one (c : Cls) (ps : List Piece) (x : Char) (xs : Text) (pos : Nat)
    (os caps : List Text) (h : c.test x = true) :
    matchPieces (.one c :: ps) (x :: xs) ⟨pos, os, caps⟩ = matchPieces ps xs ⟨pos + 1, os, caps⟩ := by
  rw [matchPieces]; simp only [h, if_true]

theorem matchPieces_one_fail (c : Cls) (ps : List Piece) (x : Char) (xs : Text) (st : MState)
    (h : c.test x = false) : matchPieces (.one c :: ps) (x :: xs) st = none := by
  rw [matchPieces]; simp [h]

theorem matchPieces_bol_zero (ps : List Piece) (inp : Text) (os caps : List Text) :
    matchPieces (.bol :: ps) inp ⟨0, os, caps⟩ = matchPieces ps inp ⟨0, os, caps⟩ := by
  rw [matchPieces]; simp

theorem matchPieces_bol_succ (ps : List Piece) (inp : Text) (n : Nat) (os caps : List Text) :
    matchPieces (.bol :: ps) inp ⟨n + 1, os, caps⟩ = none := by
  rw [matchPieces]; simp

theorem matchPieces_eol_nil (ps : List Piece) (st : MState) :
    matchPieces (.eol :: ps) [] st = matchPieces ps [] st := by
  rw [matchPieces]; simp

theorem matchPieces_eol_cons (ps : List Piece) (x : Char) (xs : Text) (st : MState) :
    matchPieces (.eol :: ps) (x :: xs) st = none := by
  rw [matchPieces]; simp

theorem matchPieces_opt_skip (c : Cls) (ps : List Piece) (x : Char) (xs : Text) (st : MState)
    (h : c.test x = false) :
    matchPieces (.opt c :: ps) (x :: xs) st = matchPieces ps (x :: xs) st := by
  rw [matchPieces]; simp [h]

theorem matchPieces_opt_take (c : Cls) (ps : List Piece) (x : Char) (xs : Text) (pos : Nat)
    (os caps : List Text) (r : Text × MState) (h : c.test x = true)
    (hr : matchPieces ps xs ⟨pos + 1, os, caps⟩ = some r) :
    matchPieces (.opt c :: ps) (x :: xs) ⟨pos, os, caps⟩ = some r := by
  rw [matchPieces]; simp [h, hr]

theorem matchPieces_opt_take_none (c : Cls) (ps : List Piece) (x : Char) (xs : Text) (pos : Nat)
    (os caps : List Text) (h : c.test x = true)
    (hr : matchPieces ps xs ⟨pos + 1, os, caps⟩ = none) :
    matchPieces (.opt c :: ps) (x :: xs) ⟨pos, os, caps⟩
      = matchPieces ps (x :: xs) ⟨pos, os, caps⟩ := by
  rw [matchPieces]; simp [h, hr]

theorem digit_test (t : Text) (h : ∀ c ∈ t, '0' ≤ c ∧ c ≤ '9') :
    ∀ x ∈ t, Cls.digit.test x = true := by
  intro x hx; simp [Cls.test, h x hx]

theorem take_length_sub (a b : Text) : (a ++ b).take ((a ++ b).length - b.length) = a := by
  simp

theorem matchPieces_fraction_tail (o : Text) (pos0 : Nat) (H M S F : Text)
    (hH : H ≠ []) (hHd : ∀ c ∈ H, '0' ≤ c ∧ c ≤ '9')
    (hM : M ≠ []) (hMd : ∀ c ∈ M, '0' ≤ c ∧ c ≤ '9')
    (hS : S ≠ []) (hSd : ∀ c ∈ S, '0' ≤ c ∧ c ≤ '9')
    (hF : F ≠ []) (hFd : ∀ c ∈ F, '0' ≤ c ∧ c ≤ '9') :
    matchPieces [.plus .digit, .closeG, .one (.lit ':'), .openG, .plus .digit, .closeG,
        .one (.lit ':'), .openG, .plus .digit, .closeG, .one .any, .openG, .plus .digit,
        .closeG, .eol]
      (H ++ ':' :: (M ++ ':' :: (S ++ '.' :: F))) ⟨pos0, [o], []⟩
      = some ([], ⟨pos0 + H.length + 1 + M.length + 1 + S.length + 1 + F.length, [],
          [o.take (o.length - (':' :: (M ++ ':' :: (S ++ '.' :: F))).length), M, S, F]⟩) := by
  refine matchPieces_plus _ _ H (':' :: (M ++ ':' :: (S ++ '.' :: F))) _ _ _ _ hH
    (digit_test H hHd) (by simp [Cls.test]) ?_
  rw [matchPieces_closeG, matchPieces_one _ _ _ _ _ _ _ (by simp [Cls.test]), matchPieces_openG]
  refine matchPieces_plus _ _ M (':' :: (S ++ '.' :: F)) _ _ _ _ hM (digit_test M hMd)
    (by simp [Cls.test]) ?_
  rw [matchPieces_closeG, matchPieces_one _ _ _ _ _ _ _ (by simp [Cls.test]), matchPieces_openG]
  refine matchPieces_plus _ _ S ('.' :: F) _ _ _ _ hS (digit_test S hSd) (by simp [Cls.test]) ?_
  rw [matchPieces_closeG, matchPieces_one _ _ _ _ _ _ _ (by simp [Cls.test]), matchPieces_openG]
  have hF' := matchPieces_plus Cls.digit [.closeG, .eol] F [] (pos0 + H.length + 1 + M.length + 1 + S.length + 1)
  simp only [List.append_nil] at hF'
  refine hF' _ _ _ hF (digit_test F hFd) (by simp) ?_
  rw [matchPieces_closeG, matchPieces_eol_nil, matchPieces]
  simp only [List.nil_append, List.length_nil, Nat.sub_zero, List.take_length, take_length_sub,
    List.cons_append, List.nil_append]



theorem take_cons_length_sub (c : Char) (a b : Text) :
    (c :: (a ++ b)).take ((c :: (a ++ b)).length - b.length) = c :: a := by
  have := take_length_sub (c :: a) b
  simpa using this

theorem matchPieces_plus_head_fail (c : Cls) (ps : List Piece) (x : Char) (xs : Text)
    (st : MState) (h : c.test x = false) :
    matchPieces (.plus c :: ps) (x :: xs) st = none := by
  rw [matchPieces, many1]; simp [h]

theorem searchFrom_bol_succ (ps : List Piece) : ∀ (inp : Text) (n : Nat),
    searchFrom (.bol :: ps) inp (n + 1) = none := by
  intro inp
  induction inp with
  | nil => intro n; rw [searchFrom, matchPieces_bol_succ]
  | cons x xs ih => intro n; rw [searchFrom, matchPieces_bol_succ]; exact ih (n + 1)

theorem FindAllSubmatch_bol_none (ps : List Piece) (b : Text)
    (h : matchPieces (.bol :: ps) b ⟨0, [], []⟩ = none) : FindAllSubmatch (.bol :: ps) b = none := by
  rw [FindAllSubmatch]
  cases b with
  | nil => rw [searchFrom, h]
  | cons x xs => rw [searchFrom, h]; exact searchFrom_bol_succ ps xs 0

theorem FindAllSubmatch_bol_some (ps : List Piece) (b : Text) (st : MState)
    (h : matchPieces (.bol :: ps) b ⟨0, [], []⟩ = some ([], st)) :
    FindAllSubmatch (.bol :: ps) b = some (b :: st.caps) := by
  rw [FindAllSubmatch]
  cases b with
  | nil => rw [searchFrom, h]; simp
  | cons x xs => rw [searchFrom, h]; simp

theorem signed_no_match (ps : List Piece) (neg : Bool) (H R : Text)
    (hH : H ≠ []) (hHd : ∀ c ∈ H, '0' ≤ c ∧ c ≤ '9')
    (h : ∀ (pos : Nat) (o : Text), matchPieces (.plus .digit :: ps) (H ++ R) ⟨pos, [o], []⟩
      = none) :
    matchPieces (.bol :: .openG :: .opt (.lit '-') :: .plus .digit :: ps)
      ((if neg = true then ['-'] else []) ++ H ++ R) ⟨0, [], []⟩ = none := by
  rw [matchPieces_bol_zero, matchPieces_openG]
  cases neg with
  | true =>
    simp only [if_true, List.cons_append, List.nil_append, List.append_assoc]
    rw [matchPieces_opt_take_none _ _ _ _ _ _ _ (by simp [Cls.test]) (h _ _)]
    exact matchPieces_plus_head_fail _ _ _ _ _ (by simp [Cls.test])
  | false =>
    cases H with
    | nil => exact absurd rfl hH
    | cons h0 H =>
      have hs := digit_not_sign h0 (hHd h0 (List.mem_cons_self _ _))
      simp only [List.nil_append, List.cons_append, Bool.false_eq_true, if_false]
      rw [matchPieces_opt_skip _ _ _ _ _ (by simp [Cls.test, hs.2])]
      exact h _ _

theorem close_eol_none (t : Text) (x : Char) (xs : Text) (pos : Nat) (o : Text)
    (os caps : List Text) :
    matchPieces [.closeG, .eol] (t ++ x :: xs) ⟨pos, o :: os, caps⟩ = none := by
  rw [matchPieces_closeG]
  cases t with
  | nil => exact matchPieces_eol_cons _ _ _ _
  | cons y ys => exact matchPieces_eol_cons _ _ _ _

theorem close_colon_none (ps : List Piece) (R : Text)
    (h : ∀ (pos : Nat) (os caps : List Text), matchPieces ps R ⟨pos, os, caps⟩ = none)
    (t : Text) (pos : Nat) (o : Text) (os caps : List Text) (ht : ∀ x ∈ t, Cls.digit.test x = true) :
    matchPieces (.closeG :: .one (.lit ':') :: ps) (t ++ ':' :: R) ⟨pos, o :: os, caps⟩ = none := by
  rw [matchPieces_closeG]
  cases t with
  | nil =>
    rw [List.nil_append, matchPieces_one _ _ _ _ _ _ _ (by simp [Cls.test])]
    exact h _ _ _
  | cons y ys =>
    have hy := ht y (List.mem_cons_self _ _)
    refine matchPieces_one_fail _ _ _ _ _ ?_
    simp only [Cls.test, decide_eq_true_eq, decide_eq_false_iff_not] at hy ⊢
    rintro rfl
    exact absurd hy.2 (by decide)

theorem group_none (ps : List Piece) (ds rest : Text) (hds : ∀ c ∈ ds, '0' ≤ c ∧ c ≤ '9')
    (hrest : ∀ x ∈ rest.head?, Cls.digit.test x = false)
    (h : ∀ (t : Text) (pos : Nat) (o : Text) (os caps : List Text),
      (∀ x ∈ t, Cls.digit.test x = true) → matchPieces ps (t ++ rest) ⟨pos, o :: os, caps⟩ = none)
    (pos : Nat) (os caps : List Text) :
    matchPieces (.openG :: .plus .digit :: ps) (ds ++ rest) ⟨pos, os, caps⟩ = none := by
  rw [matchPieces_openG]
  exact matchPieces_plus_none _ _ ds rest _ _ _ (digit_test ds hds) hrest
    (fun t pos1 ht => h t pos1 _ _ _ ht)



theorem head_not_digit (x : Char) (xs : Text) (h : ¬ ('0' ≤ x ∧ x ≤ '9')) :
    ∀ y ∈ (x :: xs).head?, Cls.digit.test y = false := by
  intro y hy
  simp only [List.head?_cons, Option.mem_def, Option.some.injEq] at hy
  subst hy
  simpa [Cls.test] using h

/-- The expression `^(\-?\d+):(\d+)$` does not match a text with two colons. -/
theorem FindAllSubmatch_reHM_none (neg : Bool) (H M R : Text)
    (hH : H ≠ []) (hHd : ∀ c ∈ H, '0' ≤ c ∧ c ≤ '9') (hMd : ∀ c ∈ M, '0' ≤ c ∧ c ≤ '9') :
    FindAllSubmatch reHM ((if neg = true then ['-'] else []) ++ H ++ ':' :: (M ++ ':' :: R))
      = none := by
  refine FindAllSubmatch_bol_none _ _ ?_
  refine signed_no_match _ neg H _ hH hHd (fun pos o => ?_)
  refine matchPieces_plus_none _ _ H _ _ _ _ (digit_test H hHd)
    (head_not_digit _ _ (by decide)) (fun t pos1 ht => ?_)
  refine close_colon_none _ _ (fun pos2 os caps => ?_) t pos1 o [] [] ht
  exact group_none _ M _ hMd (head_not_digit _ _ (by decide))
    (fun t2 pos3 o2 os2 caps2 _ => close_eol_none t2 _ _ pos3 o2 os2 caps2) pos2 os caps

/-- The expression `^(\-?\d+):(\d+):(\d+)$` does not match a text whose part
after the second colon has a character that is not a digit. -/
theorem FindAllSubmatch_reHMS_none (neg : Bool) (H M S : Text) (x : Char) (R : Text)
    (hH : H ≠ []) (hHd : ∀ c ∈ H, '0' ≤ c ∧ c ≤ '9') (hMd : ∀ c ∈ M, '0' ≤ c ∧ c ≤ '9')
    (hSd : ∀ c ∈ S, '0' ≤ c ∧ c ≤ '9') (hx : ¬ ('0' ≤ x ∧ x ≤ '9')) :
    FindAllSubmatch reHMS
      ((if neg = true then ['-'] else []) ++ H ++ ':' :: (M ++ ':' :: (S ++ x :: R))) = none := by
  refine FindAllSubmatch_bol_none _ _ ?_
  refine signed_no_match _ neg H _ hH hHd (fun pos o => ?_)
  refine matchPieces_plus_none _ _ H _ _ _ _ (digit_test H hHd)
    (head_not_digit _ _ (by decide)) (fun t pos1 ht => ?_)
  refine close_colon_none _ _ (fun pos2 os caps => ?_) t pos1 o [] [] ht
  refine group_none _ M _ hMd (head_not_digit _ _ (by decide))
    (fun t2 pos3 o2 os2 caps2 ht2 => ?_) pos2 os caps
  refine close_colon_none _ _ (fun pos4 os4 caps4 => ?_) t2 pos3 o2 os2 caps2 ht2
  exact group_none _ S _ hSd (head_not_digit _ _ hx)
    (fun t5 pos5 o5 os5 caps5 _ => close_eol_none t5 _ _ pos5 o5 os5 caps5) pos4 os4 caps4

/-- The expression `^(\-?\d+):(\d+):(\d+).(\d+)$` matches `[-]H:MM:SS.F` with
the groups `[-]H`, `MM`, `SS`, `F`. -/
theorem FindAllSubmatch_reHMSF (neg : Bool) (H M S F : Text)
    (hH : H ≠ []) (hHd : ∀ c ∈ H, '0' ≤ c ∧ c ≤ '9')
    (hM : M ≠ []) (hMd : ∀ c ∈ M, '0' ≤ c ∧ c ≤ '9')
    (hS : S ≠ []) (hSd : ∀ c ∈ S, '0' ≤ c ∧ c ≤ '9')
    (hF : F ≠ []) (hFd : ∀ c ∈ F, '0' ≤ c ∧ c ≤ '9') :
    FindAllSubmatch reHMSF
      ((if neg = true then ['-'] else []) ++ H ++ ':' :: (M ++ ':' :: (S ++ '.' :: F)))
      = some [(if neg = true then ['-'] else []) ++ H ++ ':' :: (M ++ ':' :: (S ++ '.' :: F)),
          (if neg = true then ['-'] else []) ++ H, M, S, F] := by
  cases neg with
  | true =>
    have ht := matchPieces_fraction_tail ('-' :: (H ++ ':' :: (M ++ ':' :: (S ++ '.' :: F)))) (0 + 1)
      H M S F hH hHd hM hMd hS hSd hF hFd
    rw [take_cons_length_sub] at ht
    have hm : matchPieces reHMSF ('-' :: (H ++ ':' :: (M ++ ':' :: (S ++ '.' :: F)))) ⟨0, [], []⟩
        = some ([], ⟨0 + 1 + H.length + 1 + M.length + 1 + S.length + 1 + F.length, [],
            ['-' :: H, M, S, F]⟩) := by
      simp only [reHMSF, signedGroup, digitGroup, List.cons_append, List.nil_append]
      rw [matchPieces_bol_zero, matchPieces_openG]
      exact matchPieces_opt_take _ _ _ _ _ _ _ _ (by simp [Cls.test]) ht
    have := FindAllSubmatch_bol_some _ _ _ hm
    simpa using this
  | false =>
    cases H with
    | nil => exact absurd rfl hH
    | cons h0 H =>
      have hs := digit_not_sign h0 (hHd h0 (List.mem_cons_self _ _))
      have ht := matchPieces_fraction_tail (h0 :: H ++ ':' :: (M ++ ':' :: (S ++ '.' :: F))) 0
        (h0 :: H) M S F hH hHd hM hMd hS hSd hF hFd
      rw [take_length_sub] at ht
      have hm : matchPieces reHMSF (h0 :: H ++ ':' :: (M ++ ':' :: (S ++ '.' :: F))) ⟨0, [], []⟩
          = some ([], ⟨0 + (h0 :: H).length + 1 + M.length + 1 + S.length + 1 + F.length, [],
              [h0 :: H, M, S, F]⟩) := by
        simp only [reHMSF, signedGroup, digitGroup, List.cons_append, List.nil_append]
        rw [matchPieces_bol_zero, matchPieces_openG,
          matchPieces_opt_skip _ _ _ _ _ (by simp [Cls.test, hs.2])]
        simpa only [List.cons_append] using ht
      have := FindAllSubmatch_bol_some _ _ _ hm
      simpa using this

/-! ## The handler of the fraction pattern -/

theorem wrapS_id (x : Int) (h1 : -9223372036854775808 ≤ x) (h2 : x < 9223372036854775808) :
    wrapS 64 x = x := by
  simp only [wrapS]; omega

theorem nineDigits_eq (F : Text) :
    (F ++ List.replicate (9 - F.length) '0').take 9 = nineDigits F := by
  unfold nineDigits
  by_cases h : F.length < 9
  · rw [if_pos h, List.take_of_length_le (by simp; omega)]
  · have : 9 - F.length = 0 := by omega
    rw [if_neg h, this]; simp

theorem nineDigits_isDigits (F : Text) (h : IsDigits F) : IsDigits (nineDigits F) := by
  obtain ⟨hne, hd⟩ := h
  unfold nineDigits
  split_ifs with hl
  · refine ⟨by simp [hne], fun c hc => ?_⟩
    rcases List.mem_append.mp hc with hc | hc
    · exact hd c hc
    · rw [(List.mem_replicate.mp hc).2]; decide
  · refine ⟨?_, fun c hc => hd c (List.mem_of_mem_take hc)⟩
    intro h0
    rcases List.take_eq_nil_iff.mp h0 with h1 | h1
    · exact absurd h1 (by decide)
    · exact hne h1

theorem handleHMSF_eval (L : Lib) (T : Text) (neg : Bool) (H M S F : Text)
    (hH : IsDigits H) (hM : IsDigits M) (hS : IsDigits S) (hF : IsDigits F)
    (hb : Hour * (decimalValue H : Int) + Minute * (decimalValue M : Int)
      + Second * (decimalValue S : Int) + (decimalValue (nineDigits F) : Int) < 2 ^ 63) :
    handleHMSF L [T, (if neg = true then ['-'] else []) ++ H, M, S, F]
      = some (if neg = true ∧ decimalValue H ≠ 0
          then -(Hour * (decimalValue H : Int) + Minute * (decimalValue M : Int)
            + Second * (decimalValue S : Int) + (decimalValue (nineDigits F) : Int))
          else Hour * (decimalValue H : Int) + Minute * (decimalValue M : Int)
            + Second * (decimalValue S : Int) + (decimalValue (nineDigits F) : Int)) := by
  have hN := nineDigits_isDigits F hF
  simp only [Hour, Minute, Second] at hb ⊢
  have hMv := ParseInt_digits M hM.1 hM.2 (by norm_num; omega)
  have hSv := ParseInt_digits S hS.1 hS.2 (by norm_num; omega)
  have hNv := ParseInt_digits (nineDigits F) hN.1 hN.2 (by norm_num; omega)
  have hHv : (ParseInt ((if neg = true then ['-'] else []) ++ H)).1
      = if neg = true then -(decimalValue H : Int) else (decimalValue H : Int) := by
    cases neg with
    | true =>
      simp only [if_true, List.cons_append, List.nil_append]
      rw [ParseInt_neg_digits H hH.1 hH.2 (by norm_num; omega)]
    | false =>
      simp only [Bool.false_eq_true, if_false, List.nil_append]
      rw [ParseInt_digits H hH.1 hH.2 (by norm_num; omega)]
  simp only [handleHMSF, List.get?, Int64_bytes, Option.some_bind, Option.bind_eq_bind,
    bind, pure, nineDigits_eq, hMv, hSv, hNv, hHv]
  generalize decimalValue H = h at hb ⊢
  generalize decimalValue M = m at hb ⊢
  generalize decimalValue S = s at hb ⊢
  generalize decimalValue (nineDigits F) = f at hb ⊢
  congr 1
  simp only [Hour, Minute, Second]
  norm_num at hb ⊢
  cases neg with
  | true =>
    simp only [if_true, true_and]
    by_cases h0 : h = 0
    · subst h0
      simp (disch := omega) only [wrapS_id, Nat.cast_zero, neg_zero, mul_zero, lt_self_iff_false,
        if_false, zero_add, one_mul, ne_eq, not_true_eq_false]
    · have hpos : 0 < h := Nat.pos_of_ne_zero h0
      have hlt : (3600000000000 : Int) * -(h : Int) < 0 := by omega
      simp (disch := omega) only [wrapS_id, hlt, if_true, h0, not_false_eq_true, ne_eq]
      omega
  | false =>
    have hge : ¬ ((3600000000000 : Int) * (h : Int) < 0) := by omega
    simp (disch := omega) only [wrapS_id, Bool.false_eq_true, if_false, false_and, hge, one_mul]

/-! ## Clock-style durations with a fraction -/

theorem durationEntry_fraction (L : Lib) (neg : Bool) (H M S F : Text)
    (hH : IsDigits H) (hM : IsDigits M) (hS : IsDigits S) (hF : IsDigits F) :
    durationEntry L ((if neg = true then ['-'] else []) ++ H ++ ':' :: (M ++ ':' :: (S ++ '.' :: F))) 0
      = none ∧
    durationEntry L ((if neg = true then ['-'] else []) ++ H ++ ':' :: (M ++ ':' :: (S ++ '.' :: F))) 1
      = none ∧
    durationEntry L ((if neg = true then ['-'] else []) ++ H ++ ':' :: (M ++ ':' :: (S ++ '.' :: F))) 2
      = some (handleHMSF L
          [(if neg = true then ['-'] else []) ++ H ++ ':' :: (M ++ ':' :: (S ++ '.' :: F)),
            (if neg = true then ['-'] else []) ++ H, M, S, F]) := by
  refine ⟨?_, ?_, ?_⟩
  · simp only [durationEntry, strToDurationMatches, List.get?,
      FindAllSubmatch_reHM_none neg H M (S ++ '.' :: F) hH.1 hH.2 hM.2]
  · simp only [durationEntry, strToDurationMatches, List.get?,
      FindAllSubmatch_reHMS_none neg H M S '.' F hH.1 hH.2 hM.2 hS.2 (by decide)]
  · simp only [durationEntry, strToDurationMatches, List.get?,
      FindAllSubmatch_reHMSF neg H M S F hH.1 hH.2 hM.1 hM.2 hS.1 hS.2 hF.1 hF.2]

/-- For every text `[-]H:MM:SS.F` whose four components are non-empty texts
of decimal digits and whose total stays below `2^63` nanoseconds, `Duration`
returns, in every order of the pattern table, `H` hours + `MM` minutes + `SS`
seconds + `F'` nanoseconds, where `F'` is `F` padded on the right with zeros
or cut to nine digits; the whole is negated when the text has a `-` and `H` is
not zero, and it is not negated when the text has a `-` and `H` is zero. -/
theorem Duration_clock_fraction (L : Lib) (o : TableOrder) (neg : Bool) (H M S F : Text)
    (hH : IsDigits H) (hM : IsDigits M) (hS : IsDigits S) (hF : IsDigits F)
    (hb : Hour * (decimalValue H : Int) + Minute * (decimalValue M : Int)
      + Second * (decimalValue S : Int) + (decimalValue (nineDigits F) : Int) < 2 ^ 63) :
    Duration L o
        (.string ((if neg = true then ['-'] else []) ++ H ++ ':' :: (M ++ ':' :: (S ++ '.' :: F))))
      = some (if neg = true ∧ decimalValue H ≠ 0
          then -(Hour * (decimalValue H : Int) + Minute * (decimalValue M : Int)
            + Second * (decimalValue S : Int) + (decimalValue (nineDigits F) : Int))
          else Hour * (decimalValue H : Int) + Minute * (decimalValue M : Int)
            + Second * (decimalValue S : Int) + (decimalValue (nineDigits F) : Int)) := by
  obtain ⟨h0, h1, h2⟩ := durationEntry_fraction L neg H M S F hH hM hS hF
  have hp : ParseDuration L
      ((if neg = true then ['-'] else []) ++ H ++ ':' :: (M ++ ':' :: (S ++ '.' :: F))) = none := by
    cases M with
    | nil => exact absurd rfl hM.1
    | cons c M =>
      exact ParseDuration_clock L neg H _ c hH.1 hH.2 (hM.2 c (List.mem_cons_self _ _))
  simp only [Duration, To.String, Option.some_bind, strToDuration, hp]
  rw [handleHMSF_eval L _ neg H M S F hH hM hS hF hb] at h2
  refine strToDurationRange_only L _ 2 _ h2 o.val ?_ ?_
  · exact (mem_of_tableOrder o 2).mpr (Or.inr (Or.inr rfl))
  · intro j hj hne
    rcases (mem_of_tableOrder o j).mp hj with h | h | h <;> subst h
    · exact h0
    · exact h1
    · exact absurd rfl hne

set_option maxRecDepth 4000 in
/-- The texts `1:30:15.5`, `-1:30:15.5` and `0:00:01.1234567891` yield 1h30m15.5s,
-1h30m15.5s and 1.123456789s. -/
theorem Duration_clock_fraction_witness :
    Duration Lib.trivial sourceOrder (.string "1:30:15.5".toList) = some 5415500000000 ∧
    Duration Lib.trivial reverseOrder (.string "-1:30:15.5".toList) = some (-5415500000000) ∧
    Duration Lib.trivial sourceOrder (.string "0:00:01.1234567891".toList) = some 1123456789 :=
  ⟨Duration_clock_fraction Lib.trivial sourceOrder false "1".toList "30".toList "15".toList
      "5".toList ⟨by decide, by decide⟩ ⟨by decide, by decide⟩ ⟨by decide, by decide⟩
      ⟨by decide, by decide⟩ (by decide),
    Duration_clock_fraction Lib.trivial reverseOrder true "1".toList "30".toList "15".toList
      "5".toList ⟨by decide, by decide⟩ ⟨by decide, by decide⟩ ⟨by decide, by decide⟩
      ⟨by decide, by decide⟩ (by decide),
    Duration_clock_fraction Lib.trivial sourceOrder false "0".toList "00".toList "01".toList
      "1234567891".toList ⟨by decide, by decide⟩ ⟨by decide, by decide⟩ ⟨by decide, by decide⟩
      ⟨by decide, by decide⟩ (by decide)⟩


set_option maxRecDepth 4000 in
/-- C7: for the text `-0:00:01.5` the hour component carries a `-`, yet
`Duration` returns plus 1.5 seconds in every order of the pattern table: as in
the handler of `H:MM`, the sign is read off the number of hours, which is
`0`. -/
theorem Duration_minus_zero_fraction (L : Lib) (o : TableOrder) :
    Duration L o (.string "-0:00:01.5".toList) = some (1 * Second + 500000000) := by
  have hp : ParseDuration L "-0:00:01.5".toList = none :=
    ParseDuration_clock L true ['0'] "0:01.5".toList '0' (by decide) (by decide) (by decide)
  rw [Duration_string_of_clock L o _ hp]
  refine strToDurationRange_only Lib.trivial _ 2 _ (by decide) o.val ?_ ?_
  · exact (mem_of_tableOrder o 2).mpr (Or.inr (Or.inr rfl))
  · intro j hj hne
    rcases (mem_of_tableOrder o j).mp hj with h | h | h <;> subst h
    · decide
    · decide
    · exact absurd rfl hne

/-! ## Integer conversions of integer values -/

theorem wrapS_of_range (w : Nat) (x : Int) (hw : 0 < w) (h1 : -2 ^ (w - 1) ≤ x)
    (h2 : x < 2 ^ (w - 1)) : wrapS w x = x := by
  unfold wrapS
  have hp : (2 : Int) ^ w = 2 * 2 ^ (w - 1) := by
    obtain ⟨k, rfl⟩ : ∃ k, w = k + 1 := ⟨w - 1, by omega⟩
    simp [pow_succ, mul_comm]
  rw [hp]
  have hpos : (0 : Int) < 2 ^ (w - 1) := by positivity
  rw [Int.emod_eq_of_lt (by omega) (by omega)]
  omega

theorem wrapU_of_range (w : Nat) (x : Int) (h1 : 0 ≤ x) (h2 : x < 2 ^ w) : wrapU w x = x := by
  unfold wrapU
  exact Int.emod_eq_of_lt h1 h2

/-- C11: for each of the ten integer types, the conversion to that type of a
value already of that type returns the value. -/
theorem own_conversion_identity (L : Lib) (v : Value) (n : Int) (hv : v.intValue = some n)
    (hr : v.inRange) : v.ownConversion L = some n := by
  cases v <;> simp only [Value.intValue, Option.some.injEq] at hv <;> try contradiction
  all_goals
    subst hv
    simp only [Value.inRange] at hr
    simp only [Value.ownConversion, To.Int, Int8, Int16, Int32, Int64, Uint, Uint8, Uint16,
      Uint32, Uint64, Option.map_some', Option.some.injEq]
  · exact wrapS_of_range 64 _ (by norm_num) hr.1 hr.2
  · exact wrapS_of_range 8 _ (by norm_num) hr.1 hr.2
  · exact wrapS_of_range 16 _ (by norm_num) hr.1 hr.2
  · exact wrapS_of_range 32 _ (by norm_num) hr.1 hr.2
  · exact wrapU_of_range 64 _ hr.1 hr.2
  · exact wrapU_of_range 8 _ hr.1 hr.2
  · exact wrapU_of_range 16 _ hr.1 hr.2
  · exact wrapU_of_range 32 _ hr.1 hr.2

/-- C11, at the `int8` value `-128` and its conversion `Int8`. -/
theorem own_conversion_identity_witness :
    (Value.int8 (-128)).ownConversion Lib.trivial = some (-128) :=
  own_conversion_identity Lib.trivial (.int8 (-128)) (-128) rfl
    (by simp only [Value.inRange]; norm_num)

/-! ## Values of other types in the numeric conversions -/

/-- C12, as stated, fails at the byte sequence of `42`: its type is none of the
integer, float, boolean or text-string types, and `Int64` returns `42`. -/
theorem Int64_bytes_42 :
    (Value.bytes "42".toList).isNumericOrText = false ∧
    Int64 Lib.trivial (.bytes "42".toList) = some 42 := by
  constructor <;> decide

theorem ParseInt_paren (s : Text) : (ParseInt ('(' :: s)).1 = 0 := by
  simp [ParseInt, ParseUint, parseUintLoop]

/-- C12, amended: for every value whose type is none of the integer, float,
boolean or text-string types, `Uint64` and `Float64`, and with them `Uint`,
`Uint8`, `Uint16`, `Uint32` and `Float32`, return `0`; `Int64` returns the
integer that `strconv.ParseInt` reads from `String(v)`, which is `0` for nil
and for a complex number, and `Int`, `Int8`, `Int16`, `Int32` return its
truncation. -/
theorem unsupported_numeric (L : Lib) (v : Value) (h : v.isNumericOrText = false) :
    Uint64 L v = some 0 ∧ Uint L v = some 0 ∧ Uint8 L v = some 0 ∧ Uint16 L v = some 0 ∧
    Uint32 L v = some 0 ∧ Float64 L v = some 0 ∧ Float32 L v = some 0 ∧
    Int64 L v = (To.String L v).map (fun s => (ParseInt s).1) ∧
    To.Int L v = (To.String L v).map (fun s => wrapS 64 (ParseInt s).1) ∧
    Int8 L v = (To.String L v).map (fun s => wrapS 8 (ParseInt s).1) ∧
    Int16 L v = (To.String L v).map (fun s => wrapS 16 (ParseInt s).1) ∧
    Int32 L v = (To.String L v).map (fun s => wrapS 32 (ParseInt s).1) ∧
    Int64 L .nil = some 0 ∧
    (∀ re im, Int64 L (.complex128 re im) = some 0 ∧ Int64 L (.complex64 re im) = some 0) := by
  have hu : Uint64 L v = some 0 := by
    cases v <;> simp only [Value.isNumericOrText, Bool.true_eq_false] at h <;> rfl
  have hf : Float64 L v = some 0 := by
    cases v <;> simp only [Value.isNumericOrText, Bool.true_eq_false] at h <;> rfl
  have hi : Int64 L v = (To.String L v).map (fun s => (ParseInt s).1) := by
    cases v <;> simp only [Value.isNumericOrText, Bool.true_eq_false] at h <;> rfl
  refine ⟨hu, ?_, ?_, ?_, ?_, hf, ?_, hi, ?_, ?_, ?_, ?_, ?_, ?_⟩
  · simp only [Uint, hu]; rfl
  · simp only [Uint8, hu]; rfl
  · simp only [Uint16, hu]; rfl
  · simp only [Uint32, hu]; rfl
  · simp [Float32, hf, L.float64To32_zero]
  · simp only [To.Int, hi, Option.map_map]; rfl
  · simp only [Int8, hi, Option.map_map]; rfl
  · simp only [Int16, hi, Option.map_map]; rfl
  · simp only [Int32, hi, Option.map_map]; rfl
  · simp [Int64, To.String, ParseInt]
  · intro re im
    constructor
    · simp only [Int64, To.String, complex128ToBytes, Option.map_some', Option.some.injEq]
      split_ifs <;> simp only [List.cons_append] <;> exact ParseInt_paren _
    · simp only [Int64, To.String, complex128ToBytes, Option.map_some', Option.some.injEq]
      split_ifs <;> simp only [List.cons_append] <;> exact ParseInt_paren _

/-- C12, amended, at the complex number with the bit patterns `0`, `0`. -/
theorem unsupported_numeric_witness :
    Uint64 Lib.trivial (.complex128 0 0) = some 0 ∧ Uint Lib.trivial (.complex128 0 0) = some 0 ∧
    Uint8 Lib.trivial (.complex128 0 0) = some 0 ∧ Uint16 Lib.trivial (.complex128 0 0) = some 0 ∧
    Uint32 Lib.trivial (.complex128 0 0) = some 0 ∧
    Float64 Lib.trivial (.complex128 0 0) = some 0 ∧
    Float32 Lib.trivial (.complex128 0 0) = some 0 ∧
    Int64 Lib.trivial (.complex128 0 0)
      = (To.String Lib.trivial (.complex128 0 0)).map (fun s => (ParseInt s).1) ∧
    To.Int Lib.trivial (.complex128 0 0)
      = (To.String Lib.trivial (.complex128 0 0)).map (fun s => wrapS 64 (ParseInt s).1) ∧
    Int8 Lib.trivial (.complex128 0 0)
      = (To.String Lib.trivial (.complex128 0 0)).map (fun s => wrapS 8 (ParseInt s).1) ∧
    Int16 Lib.trivial (.complex128 0 0)
      = (To.String Lib.trivial (.complex128 0 0)).map (fun s => wrapS 16 (ParseInt s).1) ∧
    Int32 Lib.trivial (.complex128 0 0)
      = (To.String Lib.trivial (.complex128 0 0)).map (fun s => wrapS 32 (ParseInt s).1) ∧
    Int64 Lib.trivial .nil = some 0 ∧
    (∀ re im, Int64 Lib.trivial (.complex128 re im) = some 0 ∧
      Int64 Lib.trivial (.complex64 re im) = some 0) :=
  unsupported_numeric Lib.trivial (.complex128 0 0) rfl

/-! ## Bytes and text -/

/-- C13: for every value, `Bytes` returns the bytes of the text that `String`
returns: the two agree case by case, a text and a byte sequence being returned
as they are. -/
theorem Bytes_eq_String (L : Lib) (v : Value) : Bytes L v = To.String L v := by
  cases v <;> rfl

/-! ## Lists -/

theorem take_set_self {α : Type} (a : α) : ∀ (l : List α) (i : Nat),
    (l.set i a).take i = l.take i := by
  intro l
  induction l with
  | nil => intro i; simp
  | cons x xs ih =>
    intro i
    cases i with
    | zero => simp
    | succ i => simp [ih i]

theorem listCopy_spec (src : List Value) : ∀ (k i : Nat) (list : List Value),
    i + k = src.length → list.length = src.length → list.take i = src.take i →
    listCopy src k i list = some src := by
  intro k
  induction k with
  | zero =>
    intro i list hi hl ht
    simp only [listCopy]
    have h1 : i = src.length := by omega
    rw [h1, List.take_length, ← hl, List.take_length] at ht
    rw [ht]
  | succ k ih =>
    intro i list hi hl ht
    have hlt : i < src.length := by omega
    simp only [listCopy, List.get?_eq_getElem?, List.getElem?_eq_getElem hlt, hl, hlt, if_true]
    refine ih (i + 1) _ (by omega) (by simp [hl]) ?_
    rw [List.take_succ, List.take_succ, List.getElem?_eq_getElem hlt]
    have h1 : (list.set i src[i]).take i = list.take i := take_set_self _ _ _
    have h2 : (list.set i src[i])[i]? = some src[i] := by
      rw [List.getElem?_set_self (by omega)]
    rw [h1, h2, ht]

/-- C14: for every value of kind slice, `List` returns the list of its
elements, in order and of the same length (`[1, 2, 3]` for the slice
`[1, 2, 3]`, the bytes for a byte sequence); for every other value, nil
included, it returns the empty list.  The loop never indexes out of range. -/
theorem List_slice (v : Value) :
    To.List v = some (if v.kind = some Kind.Slice then v.elems else []) ∧
    To.List (.slice .Int [.int 1, .int 2, .int 3]) = some [.int 1, .int 2, .int 3] ∧
    To.List (.bytes ['h', 'i']) = some [.uint8 104, .uint8 105] ∧
    To.List .nil = some [] := by
  have hcopy : ∀ src : List Value,
      listCopy src src.length 0 (List.replicate src.length Value.nil) = some src :=
    fun src => listCopy_spec src src.length 0 _ (by omega) (by simp) (by simp)
  refine ⟨?_, hcopy _, hcopy _, rfl⟩
  by_cases h : v.kind = some Kind.Slice
  · cases v <;> simp only [Value.kind, Option.some.injEq, reduceCtorEq] at h <;>
      simp only [To.List, Value.kind, h, if_true] <;> exact hcopy _
  · cases v <;> simp only [To.List, h, if_false]

/-! ## Maps -/

/-- C15: the map `map[float64]string{NaN: "a"}` has the one key NaN, which
`String` renders as a text, and `Map` returns the empty map for it: the lookup
`MapIndex` of a NaN fails, and `SetMapIndex` with the zero `reflect.Value`
deletes the key instead of setting it. -/
theorem Map_NaN_key (L : Lib) :
    isNaN64 0x7FF8000000000001 = true ∧
    To.String L (.float64 0x7FF8000000000001) = some (L.appendFloat64 0x7FF8000000000001) ∧
    To.Map L (.map [(.float64 0x7FF8000000000001, .string ['a'])]) = some [] := by
  refine ⟨by decide, rfl, ?_⟩
  have h : Value.selfEqual L (.float64 0x7FF8000000000001) = false := by
    simp only [Value.selfEqual]; decide
  simp only [To.Map, mapRange, To.String, float64ToBytes, h, deleteMapIndex]
  rfl

/-! ## The dispatcher -/

/-- C16, as stated, fails at the slice `[]int{1, 2}`: `Convert` to the
passthrough target returns the error of the slice case. -/
theorem Convert_slice_passthrough :
    ∃ e, Convert Lib.trivial (.slice .Int [.int 1, .int 2]) .Interface
      = some (.error e) :=
  ⟨.sliceIntoNonSlice, rfl⟩

/-- C16, amended: for every value of a kind other than slice, `Convert` to the
passthrough target returns the value itself and no error; for every value of
kind slice it returns the error `Could not convert slice into non-slice.` -/
theorem Convert_passthrough (L : Lib) (v : Value) (k : Kind) (hk : v.kind = some k) :
    Convert L v .Interface
      = if k = Kind.Slice then some (.error .sliceIntoNonSlice) else some (.ok v) := by
  simp only [Convert, hk]
  by_cases h : k = Kind.Slice
  · simp only [h, if_true, convertSlice]
  · simp only [h, if_false, convertSwitch]

/-- C16, amended, at the text `abc`. -/
theorem Convert_passthrough_witness :
    Convert Lib.trivial (.string ['a', 'b', 'c']) .Interface
      = if Kind.String = Kind.Slice then some (.error .sliceIntoNonSlice)
        else some (.ok (.string ['a', 'b', 'c'])) :=
  Convert_passthrough Lib.trivial (.string ['a', 'b', 'c']) .String rfl

theorem kind_of_ne_nil (v : Value) (hv : v ≠ .nil) : ∃ k, v.kind = some k := by
  cases v <;> first | exact absurd rfl hv | exact ⟨_, rfl⟩

theorem map_ok_ne_error {α : Type} (f : α → Value) (o : Option α) (e : ConvertError) :
    o.map (fun x => ConvertResult.ok (f x)) ≠ some (.error e) := by
  cases o <;> simp

theorem convertSwitch_error_iff (L : Lib) (v : Value) (k t : Kind) :
    (∃ e, convertSwitch L v k t = some (.error e)) ↔ t ∉ recognizedTargets := by
  cases t <;> simp [convertSwitch, recognizedTargets, map_ok_ne_error]

theorem Convert_not_slice (L : Lib) (v : Value) (k t : Kind) (hk : v.kind = some k)
    (hs : k ≠ Kind.Slice) : Convert L v t = convertSwitch L v k t := by
  simp only [Convert, hk, hs, if_false]

/-- For every value other than nil and every target tag, `Convert` returns an
error value exactly when the value is of kind slice and the target is not the
string target, or the target is not one of the recognized targets.  A panic
returns no error value and is not covered by this statement. -/
theorem Convert_error_iff (L : Lib) (v : Value) (t : Kind) (hv : v ≠ .nil) :
    (∃ e, Convert L v t = some (.error e)) ↔
      ((v.kind = some Kind.Slice ∧ t ≠ Kind.String) ∨ t ∉ recognizedTargets) := by
  obtain ⟨k, hk⟩ := kind_of_ne_nil v hv
  by_cases hs : k = Kind.Slice
  · subst hs
    by_cases ht : t = Kind.String
    · subst ht
      have hrec : Kind.String ∈ recognizedTargets := by decide
      simp only [Convert, hk, if_true, convertSlice, ne_eq, not_true_eq_false, and_false,
        hrec, or_self, iff_false, not_exists]
      intro e
      split_ifs
      · exact map_ok_ne_error _ _ e
      · exact map_ok_ne_error _ _ e
    · have hr : ∃ e, Convert L v t = some (.error e) := by
        by_cases ht2 : t = Kind.Slice
        · subst ht2
          have : Convert L v Kind.Slice = convertSwitch L v Kind.Slice Kind.Slice := by
            simp only [Convert, hk, if_true, convertSlice]
          rw [this]
          exact (convertSwitch_error_iff L v _ _).mpr (by decide)
        · refine ⟨.sliceIntoNonSlice, ?_⟩
          simp only [Convert, hk, if_true]
          cases t <;> first | exact absurd rfl ht | exact absurd rfl ht2 | rfl
      simp only [hr, hk, ht, ne_eq, not_false_eq_true, and_self, true_or]
  · rw [Convert_not_slice L v k t hk hs, convertSwitch_error_iff]
    simp [hk, hs]

/-- The integer `7` with the unrecognized target `uintptr`: an error. -/
theorem Convert_error_iff_witness :
    (∃ e, Convert Lib.trivial (.int 7) .Uintptr = some (.error e)) ↔
      (((Value.int 7).kind = some Kind.Slice ∧ Kind.Uintptr ≠ Kind.String)
        ∨ Kind.Uintptr ∉ recognizedTargets) :=
  Convert_error_iff Lib.trivial (.int 7) .Uintptr (by simp)

/-- C17: a value of a slice type with elements of kind `uint8` other than
`[]byte` is not nil, and with the string target neither condition of the claim
holds: the target is the string target, and it is recognized.  `Convert` fails
all the same, by a panic. -/
theorem Convert_fails_outside_conditions (L : Lib) (xs : List Value) :
    Value.slice .Uint8 xs ≠ .nil ∧
    ¬ (((Value.slice .Uint8 xs).kind = some Kind.Slice ∧ Kind.String ≠ Kind.String)
        ∨ Kind.String ∉ recognizedTargets) ∧
    Convert L (.slice .Uint8 xs) .String = none := by
  refine ⟨by simp, ?_, rfl⟩
  have hrec : Kind.String ∈ recognizedTargets := by decide
  simp [hrec]

/-- C18: for every target tag, `Convert` of the nil value panics instead of
returning: `reflect.TypeOf(nil)` is nil, and `Kind` is called on it before
anything else. -/
theorem Convert_nil_panics (L : Lib) (t : Kind) : Convert L .nil t = none := rfl

/-- C19: a value of a slice type with elements of kind `uint8` other than
`[]byte` (such as `type B []byte`) is of kind slice and `String` renders it,
yet `Convert` to the string target panics: the element kind sends it to the
type assertion `value.([]byte)`, which fails. -/
theorem Convert_named_bytes_panics (L : Lib) (xs : List Value) :
    (Value.slice .Uint8 xs).kind = some Kind.Slice ∧
    To.String L (.slice .Uint8 xs) = some (L.sprintf (.slice .Uint8 xs)) ∧
    Convert L (.slice .Uint8 xs) .String = none :=
  ⟨rfl, rfl, rfl⟩

theorem Int64_total (L : Lib) (v : Value) : ∃ n, Int64 L v = some n := by
  cases v <;> first
    | exact ⟨_, rfl⟩
    | (simp only [Int64]; split_ifs <;> exact ⟨_, rfl⟩)

theorem Uint64_total (L : Lib) (v : Value) : ∃ n, Uint64 L v = some n := by
  cases v <;> first
    | exact ⟨_, rfl⟩
    | (simp only [Uint64]; split_ifs <;> exact ⟨_, rfl⟩)

theorem Float64_total (L : Lib) (v : Value) : ∃ n, Float64 L v = some n := by
  cases v <;> first
    | exact ⟨_, rfl⟩
    | (simp only [Float64]; split_ifs <;> exact ⟨_, rfl⟩)

/-- Every type-specific conversion of the dispatcher returns a value. -/
theorem specificConversion_total (L : Lib) (v : Value) (t : Kind) (r : Option Value)
    (h : v.inRange) (ht : specificConversion L v t = some r) : ∃ x, r = some x := by
  obtain ⟨s, hs⟩ := String_total L v h
  obtain ⟨i, hi⟩ := Int64_total L v
  obtain ⟨u, hu⟩ := Uint64_total L v
  obtain ⟨f, hf⟩ := Float64_total L v
  cases t <;> simp only [specificConversion, Option.some.injEq, reduceCtorEq] at ht <;>
    subst ht <;>
    simp [To.Int, Int8, Int16, Int32, Uint, Uint8, Uint16, Uint32, Float32, To.Bool, hs, hi, hu,
      hf]

/-- For a value that is not a slice and a target with a type-specific
conversion, `Convert` returns the result of that conversion and no error. -/
theorem Convert_specific (L : Lib) (v : Value) (k t : Kind) (r : Option Value)
    (hk : v.kind = some k) (hs : k ≠ Kind.Slice) (ht : specificConversion L v t = some r) :
    Convert L v t = r.map ConvertResult.ok := by
  rw [Convert_not_slice L v k t hk hs]
  cases t <;> simp only [specificConversion, Option.some.injEq, reduceCtorEq] at ht <;>
    subst ht <;> simp only [convertSwitch, Option.map_map] <;> rfl

/-- For a byte sequence, and for a slice whose elements are not of kind
`uint8`, `Convert` to the string target returns the text of `String`, which
for the byte sequence is the text of its bytes. -/
theorem Convert_slice_string (L : Lib) (b : Text) (elem : Kind) (xs : List Value)
    (he : elem ≠ Kind.Uint8) :
    Convert L (.bytes b) .String = some (.ok (.string b)) ∧
    To.String L (.bytes b) = some b ∧
    Convert L (.slice elem xs) .String
      = (To.String L (.slice elem xs)).map (fun s => ConvertResult.ok (.string s)) := by
  refine ⟨rfl, rfl, ?_⟩
  simp [Convert, Value.kind, convertSlice, Value.elemKind, he]

set_option maxRecDepth 4000 in
/-- C20: the text `1:30:123` is matched by the second and by the third
expression of the table, whose handlers return 1h30m123s and 1h30m1.3s; in
the order of the source text `Duration` returns the former and in the reverse
order the latter, so the result depends on the order of iteration. -/
theorem Duration_order_dependent (L : Lib) :
    durationEntry L "1:30:123".toList 1 = some (some (1 * Hour + 30 * Minute + 123 * Second)) ∧
    durationEntry L "1:30:123".toList 2
      = some (some (1 * Hour + 30 * Minute + 1 * Second + 300000000)) ∧
    Duration L sourceOrder (.string "1:30:123".toList)
      ≠ Duration L reverseOrder (.string "1:30:123".toList) ∧
    ¬ (∀ (text : Text) (o1 o2 : TableOrder),
        Duration L o1 (.string text) = Duration L o2 (.string text)) := by
  have hp : ParseDuration L "1:30:123".toList = none :=
    ParseDuration_clock L false ['1'] "0:123".toList '3' (by decide) (by decide) (by decide)
  have hne : Duration L sourceOrder (.string "1:30:123".toList)
      ≠ Duration L reverseOrder (.string "1:30:123".toList) := by
    rw [Duration_string_of_clock L _ _ hp, Duration_string_of_clock L _ _ hp]
    decide
  refine ⟨?_, ?_, hne, fun h => hne (h _ _ _)⟩
  · rw [durationEntry_lib]; decide
  · rw [durationEntry_lib]; decide

/-! ## Maps without a NaN key -/

theorem setMapIndex_fresh (m : List (Text × Value)) (key : Text) (elem : Value)
    (h : ∀ e ∈ m, e.1 ≠ key) : setMapIndex m key elem = m ++ [(key, elem)] := by
  unfold setMapIndex
  have : m.any (fun e => decide (e.1 = key)) = false := by
    rw [List.any_eq_false]
    intro e he
    simpa using h e he
  simp [this]

theorem setMapIndex_mem (m : List (Text × Value)) (key : Text) (elem : Value)
    (e : Text × Value) (he : e ∈ setMapIndex m key elem) : e ∈ m ∨ e = (key, elem) := by
  unfold setMapIndex at he
  split_ifs at he with h
  · obtain ⟨a, ha, hae⟩ := List.mem_map.mp he
    by_cases hk : a.1 = key
    · right; simpa [hk] using hae.symm
    · left; simp only [hk, if_false] at hae; rw [← hae]; exact ha
  · rcases List.mem_append.mp he with h1 | h1
    · exact Or.inl h1
    · right; simpa using h1

theorem setMapIndex_keys (m : List (Text × Value)) (key : Text) (elem : Value) (t : Text) :
    (∃ x, (t, x) ∈ setMapIndex m key elem) ↔ ((∃ x, (t, x) ∈ m) ∨ t = key) := by
  constructor
  · rintro ⟨x, hx⟩
    rcases setMapIndex_mem m key elem _ hx with h | h
    · exact Or.inl ⟨x, h⟩
    · right; exact (Prod.mk.inj h).1
  · intro h
    unfold setMapIndex
    split_ifs with hany
    · obtain ⟨a, ha, hak⟩ := List.any_eq_true.mp hany
      have hak' : a.1 = key := by simpa using hak
      by_cases ht : t = key
      · exact ⟨elem, List.mem_map.mpr ⟨a, ha, by simp [hak', ht]⟩⟩
      · rcases h with ⟨x, hx⟩ | h
        · exact ⟨x, List.mem_map.mpr ⟨(t, x), hx, by simp [ht]⟩⟩
        · exact absurd h ht
    · rcases h with ⟨x, hx⟩ | h
      · exact ⟨x, List.mem_append_left _ hx⟩
      · exact ⟨elem, List.mem_append_right _ (by simp [h])⟩

theorem mapRange_spec (L : Lib) : ∀ (entries : List (Value × Value)) (acc : List (Text × Value)),
    (∀ kv ∈ entries, kv.1.selfEqual L = true) → (∀ kv ∈ entries, kv.1.inRange) →
    ∃ out, mapRange L entries acc = some out ∧
      (∀ t, (∃ x, (t, x) ∈ out) ↔
        ((∃ x, (t, x) ∈ acc) ∨ ∃ kv ∈ entries, To.String L kv.1 = some t)) ∧
      (∀ t x, (t, x) ∈ out →
        ((t, x) ∈ acc ∨ ∃ kv ∈ entries, To.String L kv.1 = some t ∧ kv.2 = x)) ∧
      ((entries.map (fun kv => To.String L kv.1)).Nodup →
        (∀ kv ∈ entries, ∀ e ∈ acc, To.String L kv.1 ≠ some e.1) →
        out = acc ++ entries.filterMap (fun kv => (To.String L kv.1).map (fun t => (t, kv.2)))) := by
  intro entries
  induction entries with
  | nil =>
    intro acc _ _
    refine ⟨acc, rfl, fun t => ⟨fun h => Or.inl h, fun h => ?_⟩, fun t x h => Or.inl h,
      fun _ _ => ?_⟩
    · rcases h with h | ⟨kv, hkv, _⟩
      · exact h
      · exact absurd hkv (List.not_mem_nil _)
    · simp only [List.filterMap_nil, List.append_nil]
  | cons kv rest ih =>
    intro acc hself hrange
    obtain ⟨k, v⟩ := kv
    obtain ⟨key, hkey⟩ := String_total L k (hrange (k, v) (List.mem_cons_self _ _))
    have hk : k.selfEqual L = true := hself (k, v) (List.mem_cons_self _ _)
    obtain ⟨out, hout, hkeys, hvals, hdist⟩ := ih (setMapIndex acc key v)
      (fun x hx => hself x (List.mem_cons_of_mem _ hx))
      (fun x hx => hrange x (List.mem_cons_of_mem _ hx))
    refine ⟨out, by simp only [mapRange, hkey, hk, if_true]; exact hout, ?_, ?_, ?_⟩
    · intro t
      rw [hkeys t, setMapIndex_keys]
      constructor
      · rintro ((h | h) | ⟨x, hx, hs⟩)
        · exact Or.inl h
        · exact Or.inr ⟨(k, v), List.mem_cons_self _ _, by rw [h]; exact hkey⟩
        · exact Or.inr ⟨x, List.mem_cons_of_mem _ hx, hs⟩
      · rintro (h | ⟨x, hx, hs⟩)
        · exact Or.inl (Or.inl h)
        · rcases List.mem_cons.mp hx with h1 | h1
          · subst h1
            left; right
            have : some key = some t := hkey.symm.trans hs
            exact (Option.some.inj this).symm
          · exact Or.inr ⟨x, h1, hs⟩
    · intro t x htx
      rcases hvals t x htx with h | ⟨y, hy, hs, hv⟩
      · rcases setMapIndex_mem acc key v _ h with h1 | h1
        · exact Or.inl h1
        · obtain ⟨h2, h3⟩ := Prod.mk.inj h1
          exact Or.inr ⟨(k, v), List.mem_cons_self _ _, by rw [h2]; exact hkey, h3.symm⟩
      · exact Or.inr ⟨y, List.mem_cons_of_mem _ hy, hs, hv⟩
    · intro hnd hacc
      simp only [List.map_cons, List.nodup_cons] at hnd
      have hfresh : ∀ e ∈ acc, e.1 ≠ key := by
        intro e he h
        exact hacc (k, v) (List.mem_cons_self _ _) e he (by rw [h]; exact hkey)
      rw [setMapIndex_fresh acc key v hfresh] at hdist
      rw [hdist hnd.2 ?_]
      · simp [List.filterMap_cons, hkey]
      · intro y hy e he
        rcases List.mem_append.mp he with h1 | h1
        · exact hacc y (List.mem_cons_of_mem _ hy) e h1
        · simp only [List.mem_singleton] at h1
          subst h1
          intro h
          apply hnd.1
          rw [hkey, ← h]
          exact List.mem_map.mpr ⟨y, hy, rfl⟩

/-- For a map none of whose keys is or holds a NaN: the keys of `Map(m)` are
the texts of the keys of `m`, every entry of `Map(m)` pairs the text of a key
with the value of that key, and when the texts are pairwise distinct `Map(m)`
has exactly one entry per entry of `m`.  For a value that is not a map, `Map`
returns the empty map. -/
theorem Map_without_NaN (L : Lib) (entries : List (Value × Value))
    (hself : ∀ kv ∈ entries, kv.1.selfEqual L = true) (hrange : ∀ kv ∈ entries, kv.1.inRange) :
    (∃ out, To.Map L (.map entries) = some out ∧
      (∀ t, (∃ x, (t, x) ∈ out) ↔ ∃ kv ∈ entries, To.String L kv.1 = some t) ∧
      (∀ t x, (t, x) ∈ out → ∃ kv ∈ entries, To.String L kv.1 = some t ∧ kv.2 = x) ∧
      ((entries.map (fun kv => To.String L kv.1)).Nodup →
        out = entries.filterMap (fun kv => (To.String L kv.1).map (fun t => (t, kv.2))))) ∧
    (∀ v : Value, v.kind ≠ some Kind.Map → To.Map L v = some []) := by
  constructor
  · obtain ⟨out, hout, hkeys, hvals, hdist⟩ := mapRange_spec L entries [] hself hrange
    refine ⟨out, hout, ?_, ?_, ?_⟩
    · intro t; simpa using hkeys t
    · intro t x h; simpa using hvals t x h
    · intro hnd; simpa using hdist hnd (by simp)
  · intro v hv
    cases v <;> first | rfl | exact absurd rfl hv

/-! ## When the dispatcher panics -/

theorem convertSwitch_ne_none (L : Lib) (v : Value) (k t : Kind) (h : v.inRange) :
    convertSwitch L v k t ≠ none := by
  obtain ⟨s, hs⟩ := String_total L v h
  obtain ⟨i, hi⟩ := Int64_total L v
  obtain ⟨u, hu⟩ := Uint64_total L v
  obtain ⟨f, hf⟩ := Float64_total L v
  cases t <;>
    simp [convertSwitch, To.Int, Int8, Int16, Int32, Uint, Uint8, Uint16, Uint32, Float32,
      To.Bool, hs, hi, hu, hf]

/-- For every value other than nil, with its integer within the range of its
type, `Convert` panics exactly when the target is the string target and the
value is of a slice type with elements of kind `uint8` other than `[]byte`. -/
theorem Convert_panics_iff (L : Lib) (v : Value) (t : Kind) (hv : v ≠ .nil) (hr : v.inRange) :
    Convert L v t = none ↔
      (v.elemKind = some Kind.Uint8 ∧ v.asBytes = none ∧ t = Kind.String) := by
  obtain ⟨k, hk⟩ := kind_of_ne_nil v hv
  by_cases hs : k = Kind.Slice
  · subst hs
    by_cases ht : t = Kind.String
    · subst ht
      obtain ⟨s, hs⟩ := String_total L v hr
      simp only [Convert, hk, if_true, convertSlice, and_true]
      by_cases he : v.elemKind = some Kind.Uint8
      · simp [he]
      · simp [he, hs]
    · have hne : Convert L v t ≠ none := by
        obtain ⟨e, he⟩ := (Convert_error_iff L v t hv).mpr (Or.inl ⟨hk, ht⟩)
        rw [he]; simp
      simp [hne, ht]
  · rw [Convert_not_slice L v k t hk hs]
    have he : v.elemKind ≠ some Kind.Uint8 := by
      cases v <;> simp only [Value.kind, Option.some.injEq] at hk <;>
        first
          | exact absurd hk.symm hs
          | simp [Value.elemKind]
    simp [convertSwitch_ne_none L v k t hr, he]

end To
